import Mathlib

/-!
Verification of the keep-a-changelog parsing and manipulation library.

This file gives a shallow embedding, in Lean, of the library's source:

* `src/parser.rs` — the error-resilient event-log parser (`parse`), the tree
  post-pass (`build_tree`), and the diagnostics extraction
  (`get_diagnostics`, `validate_change_groups`, `validate_release_links`);
* `src/changelog.rs` — the legacy `parse_changelog` used by
  `Changelog::from_str`, and `Changelog::promote_unreleased`;
* the small wrapper types (`ChangeGroup`, `ReleaseTag`, `ReleaseVersion`,
  `ReleaseDate`, `ReleaseLink`).

External collaborators (the markdown block parser `to_mdast`, the semver
parser, the chrono date parser, the uriparse URI parser) are out of the
repository's scope; they are modelled at their interface boundary.  The
markdown parser in particular is modelled by quantifying over the list of
block nodes it may produce; concrete documents used in theorems are
translated to their block-node lists (with line/column/byte-offset
positions) by hand.

Rust panics (`assert!`, `expect`, `unreachable!`, fuel exhaustion) are
modelled by `Option`: `none` is a panic.  Machine integers stay within
tiny ranges here and are modelled by `Nat`.
-/

namespace KeepAChangelog

/-! ## Positions (markdown::unist::Position) -/

/-- A point in a source document: 1-based line and column, 0-based byte offset. -/
structure Point where
  line : Nat
  column : Nat
  offset : Nat
deriving DecidableEq, Repr

/-- A half-open span in a source document (`markdown::unist::Position`). -/
structure Pos where
  start : Point
  stop : Point
deriving DecidableEq, Repr

/-- `static DEFAULT_POSITION: ... Position::new(1, 1, 0, 1, 1, 0)`. -/
def defaultPosition : Pos := ⟨⟨1, 1, 0⟩, ⟨1, 1, 0⟩⟩

/-- Rust `x.clamp(lo, hi)` on `usize`. -/
def clampNat (x lo hi : Nat) : Nat := max lo (min x hi)

/-- Rust `str::to_lowercase` (ASCII suffices for every string matched
here), implemented structurally so that proofs can evaluate it. -/
def lowerStr (s : String) : String := String.mk (s.toList.map Char.toLower)

/-- Rust `str::trim`, implemented structurally. -/
def trimStr (s : String) : String :=
  String.mk ((s.toList.dropWhile Char.isWhitespace).reverse.dropWhile Char.isWhitespace).reverse

/-- Rust `str::trim_end`, implemented structurally. -/
def trimRightStr (s : String) : String :=
  String.mk (s.toList.reverse.dropWhile Char.isWhitespace).reverse

/-- Split a character list on characters satisfying `p` (pieces may be
empty). -/
def splitP (p : Char → Bool) (cs : List Char) : List (List Char) :=
  cs.foldr
    (fun c acc =>
      match acc with
      | [] => [[c]]
      | cur :: rest => if p c then [] :: cur :: rest else (c :: cur) :: rest)
    [[]]

/-! ## ChangeGroup (src/change_group.rs) -/

/-- The six change-group kinds. -/
inductive ChangeGroup where
  | added
  | changed
  | deprecated
  | fixed
  | removed
  | security
deriving DecidableEq, Repr

/-- `impl Display for ChangeGroup`. -/
def ChangeGroup.display : ChangeGroup → String
  | .added => "Added"
  | .changed => "Changed"
  | .deprecated => "Deprecated"
  | .removed => "Removed"
  | .fixed => "Fixed"
  | .security => "Security"

/-- `impl FromStr for ChangeGroup`: trim, lowercase, match. Errors carry the
offending string; here only success/failure matters, the error payload is the
input itself. -/
def ChangeGroup.fromStr (value : String) : Option ChangeGroup :=
  match lowerStr (trimStr value) with
  | "added" => some .added
  | "changed" => some .changed
  | "deprecated" => some .deprecated
  | "removed" => some .removed
  | "fixed" => some .fixed
  | "security" => some .security
  | _ => none

/-! ## ReleaseTag (src/release_tag.rs) -/

/-- `[YANKED]` or `[NO CHANGES]`. -/
inductive ReleaseTag where
  | yanked
  | noChanges
deriving DecidableEq, Repr

/-- `impl Display for ReleaseTag`. -/
def ReleaseTag.display : ReleaseTag → String
  | .yanked => "YANKED"
  | .noChanges => "NO CHANGES"

/-- `impl FromStr for ReleaseTag`: lowercase then match. -/
def ReleaseTag.fromStr (value : String) : Option ReleaseTag :=
  match lowerStr value with
  | "no changes" => some .noChanges
  | "yanked" => some .yanked
  | _ => none

/-! ## External value parsers, modelled at the interface boundary -/

/-- Digits of a decimal numeral, or none. -/
def decimalNat (cs : List Char) : Option Nat :=
  if cs ≠ [] ∧ cs.all Char.isDigit then
    some (cs.foldl (fun acc c => acc * 10 + (c.toNat - '0'.toNat)) 0)
  else
    none

/-- A numeric semver identifier: digits, no leading zero unless it is "0". -/
def semverNumericOk (cs : List Char) : Bool :=
  cs ≠ [] && cs.all Char.isDigit && (cs.length = 1 || cs.head? ≠ some '0')

/-- Characters allowed in semver pre-release/build identifiers. -/
def semverIdentChar (c : Char) : Bool :=
  c.isAlpha || c.isDigit || c = '-'

/-- A semver pre-release identifier: alphanumeric/hyphen, nonempty, and if
purely numeric then no leading zero. -/
def semverPreIdentOk (cs : List Char) : Bool :=
  cs ≠ [] && cs.all semverIdentChar &&
    (!cs.all Char.isDigit || semverNumericOk cs)

/-- A semver build identifier: alphanumeric/hyphen, nonempty. -/
def semverBuildIdentOk (cs : List Char) : Bool :=
  cs ≠ [] && cs.all semverIdentChar

/-- Split a character list at the first character satisfying `p`; returns
the pieces strictly before and strictly after it. -/
def splitOnFirst (p : Char → Bool) : List Char → Option (List Char × List Char)
  | [] => none
  | c :: rest =>
    if p c then some ([], rest)
    else (splitOnFirst p rest).map (fun r => (c :: r.1, r.2))

/-- Split a character list on a separator character. -/
def splitOnChar (sep : Char) (cs : List Char) : List (List Char) :=
  cs.foldr
    (fun c acc =>
      match acc with
      | [] => [[c]]
      | cur :: rest => if c = sep then [] :: cur :: rest else (c :: cur) :: rest)
    [[]]

/-- Modelled from the spec: the external semver parser (`semver::Version`),
per semver 2.0.0 — `major.minor.patch`, numeric without leading zeros,
optional `-prerelease` and `+build` suffixes. -/
def semverValid (s : String) : Bool :=
  let cs := s.toList
  let (core, build) :=
    match splitOnFirst (· = '+') cs with
    | some (a, b) => (a, some b)
    | none => (cs, none)
  let (vcore, pre) :=
    match splitOnFirst (· = '-') core with
    | some (a, b) => (a, some b)
    | none => (core, none)
  let coreOk :=
    match splitOnChar '.' vcore with
    | [ma, mi, pa] => semverNumericOk ma && semverNumericOk mi && semverNumericOk pa
    | _ => false
  let preOk :=
    match pre with
    | none => true
    | some p => (splitOnChar '.' p).all semverPreIdentOk
  let buildOk :=
    match build with
    | none => true
    | some b => (splitOnChar '.' b).all semverBuildIdentOk
  coreOk && preOk && buildOk

/-- `src/release_version.rs`: `ReleaseVersion(String)`, validated by the
external semver parser; on success the original string is kept. The error
payload (the semver crate's message) is modelled as an unspecified string
derived from the input; no claim inspects it. -/
def ReleaseVersion.fromStr (value : String) : Except String String :=
  if semverValid value then .ok value
  else .error ("Could not parse version as semver: " ++ value)

/-- Number of days in a month of the proleptic Gregorian calendar. -/
def daysInMonth (y m : Nat) : Nat :=
  if m = 1 ∨ m = 3 ∨ m = 5 ∨ m = 7 ∨ m = 8 ∨ m = 10 ∨ m = 12 then 31
  else if m = 4 ∨ m = 6 ∨ m = 9 ∨ m = 11 then 30
  else if m = 2 then
    if y % 4 = 0 ∧ (y % 100 ≠ 0 ∨ y % 400 = 0) then 29 else 28
  else 0

/-- Modelled from the spec: the external calendar-date validation — a valid
`y-m-d` proleptic Gregorian date. -/
def ymdOk (y m d : Nat) : Bool :=
  1 ≤ m && m ≤ 12 && 1 ≤ d && d ≤ daysInMonth y m

/-- Modelled from the spec: the external chrono parse of
`"{value}T00:00:00Z"` as an RFC 3339 timestamp — `value` must be
`YYYY-MM-DD` with a valid calendar date. -/
def dateStringOk (value : String) : Bool :=
  match value.toList with
  | [y1, y2, y3, y4, '-', m1, m2, '-', d1, d2] =>
    match decimalNat [y1, y2, y3, y4], decimalNat [m1, m2], decimalNat [d1, d2] with
    | some y, some m, some d => ymdOk y m d
    | _, _, _ => false
  | _ => false

/-- `src/release_date.rs`: `ReleaseDate(String)` validated by appending
`T00:00:00Z` and parsing with chrono; on success the original string is
kept. -/
def ReleaseDate.fromStr (value : String) : Except String String :=
  if dateStringOk value then .ok value
  else .error ("Could not parse release date as YYYY-MM-DD: " ++ value)

/-- Characters permitted anywhere in a URI. -/
def uriChar (c : Char) : Bool :=
  c.isAlpha || c.isDigit ||
    "-._~:/?#[]@!$&()*+,;=%".toList.contains c || c = '\''

/-- Modelled from the spec: the external URI parser (`uriparse::URI`) — a
scheme (alpha then alphanumeric/`+`/`-`/`.`) followed by `:` and a
remainder of permitted URI characters. -/
def uriValid (s : String) : Bool :=
  match splitOnFirst (· = ':') s.toList with
  | some (scheme, rest) =>
    scheme ≠ [] &&
      (scheme.head?.elim false Char.isAlpha) &&
      scheme.all (fun c => c.isAlpha || c.isDigit || c = '+' || c = '-' || c = '.') &&
      rest.all uriChar
  | none => false

/-- `src/release_link.rs`: `ReleaseLink(uriparse::URI)`; the URI value is
modelled by the validated string. -/
def ReleaseLink.fromStr (value : String) : Except String String :=
  if uriValid value then .ok value
  else .error ("Could not parse release link as a URI: " ++ value)

/-! ## A small regular-expression engine

The source matches headings against four anchored regexes
(`regex_lite`/`regex` crates).  They are embedded literally as pattern
values for the engine below, which implements backtracking semantics:
alternation prefers the left branch, `+`/`?` are greedy, captures record
the last match of each group, and the first full (anchored) match in
preference order is the one reported — the same answers the crates give
for these anchored patterns. -/

/-- Regex syntax: literals, character classes (with negation and ranges),
`.` (any char except newline), concatenation, alternation, greedy `?` and
`+`, and capture groups. -/
inductive RE where
  | eps
  | lit (c : Char)
  | cls (neg : Bool) (chars : List Char) (ranges : List (Char × Char))
  | anyc
  | seq (a b : RE)
  | alt (a b : RE)
  | opt (a : RE)
  | plus (a : RE)
  | group (idx : Nat) (a : RE)

/-- Membership in a character class. -/
def clsHas (neg : Bool) (chars : List Char) (ranges : List (Char × Char)) (c : Char) : Bool :=
  let inSet := chars.contains c || ranges.any (fun r => r.1 ≤ c && c ≤ r.2)
  if neg then !inSet else inSet

/-- Capture environment: group index paired with the captured characters. -/
abbrev Caps := List (Nat × List Char)

/-- Zero or more further greedy repetitions of a matcher, each consuming at
least one character; the fuel bounds the number of repetitions. -/
def runRep (f : List Char → List (List Char × Caps)) : Nat → List Char → List (List Char × Caps)
  | 0, s => [(s, [])]
  | n + 1, s =>
    (((f s).filter (fun r => r.1.length < s.length)).flatMap
      (fun r => (runRep f n r.1).map (fun r2 => (r2.1, r.2 ++ r2.2)))) ++ [(s, [])]

/-- Run a regex against a character list.  Returns every way the regex can
match a prefix, in backtracking preference order, as (remaining suffix,
captures) pairs. -/
def runP : RE → List Char → List (List Char × Caps)
  | .eps, s => [(s, [])]
  | .lit _, [] => []
  | .lit c, c' :: rest => if c' = c then [(rest, [])] else []
  | .cls _ _ _, [] => []
  | .cls n cs rs, c' :: rest => if clsHas n cs rs c' then [(rest, [])] else []
  | .anyc, [] => []
  | .anyc, c' :: rest => if c' ≠ '\n' then [(rest, [])] else []
  | .seq a b, s =>
    (runP a s).flatMap (fun r => (runP b r.1).map (fun r2 => (r2.1, r.2 ++ r2.2)))
  | .alt a b, s => runP a s ++ runP b s
  | .opt a, s => runP a s ++ [(s, [])]
  | .plus a, s =>
    (runP a s).flatMap (fun r =>
      if r.1.length < s.length then
        (runRep (runP a) r.1.length r.1).map (fun r2 => (r2.1, r.2 ++ r2.2))
      else
        [(r.1, r.2)])
  | .group i a, s =>
    (runP a s).map (fun r => (r.1, r.2 ++ [(i, s.take (s.length - r.1.length))]))

/-- First full anchored match (`^...$`), in preference order. -/
def reMatches (re : RE) (s : String) : Option Caps :=
  ((runP re s.toList).find? (fun r => r.1 = [])).map (fun r => r.2)

/-- Whether an anchored regex matches the whole string. -/
def reIsMatch (re : RE) (s : String) : Bool :=
  (reMatches re s).isSome

/-- Last recorded capture of a group, as a string. -/
def capStr (caps : Caps) (i : Nat) : Option String :=
  ((caps.filter (fun e => e.1 = i)).getLast?).map (fun e => String.mk e.2)

/-- Concatenation of a list of regexes. -/
def reSeq (l : List RE) : RE := l.foldr .seq .eps

/-- A literal string regex. -/
def litStr (s : String) : RE := reSeq (s.toList.map .lit)

/-- A case-insensitive literal string regex (ASCII, as `(?i)` on these
patterns). -/
def litStrCI (s : String) : RE :=
  reSeq (s.toList.map (fun c => .cls false [c.toLower, c.toUpper] []))

/-- The characters `\s` stands for (ASCII; the headings matched here contain
no exotic whitespace). -/
def wsChars : List Char := [' ', '\t', '\n', '\x0B', '\x0C', '\r']

/-- `\s`. -/
def wsRE : RE := .cls false wsChars []

/-- `\d`. -/
def digitRE : RE := .cls false [] [('0', '9')]

/-- `r{n}`. -/
def reRep (n : Nat) (r : RE) : RE := reSeq (List.replicate n r)

/-- `src/parser.rs` `UNRELEASED_HEADER_REGEX`:
`^(\[Unreleased]|Unreleased)$`. -/
def unreleasedHeaderRE : RE :=
  .group 1 (.alt (litStr "[Unreleased]") (litStr "Unreleased"))

/-- `src/parser.rs` `RELEASE_HEADER_REGEX`:
`^\[?(?P<version>[^]\s-]+)]?\s+-\s+(?P<release_date>[^\s]+)(?:\s+\[(?P<tag>.+)])?$`
with groups version=1, release_date=2, tag=3. -/
def releaseHeaderRE : RE :=
  reSeq [
    .opt (.lit '['),
    .group 1 (.plus (.cls true (']' :: '-' :: wsChars) [])),
    .opt (.lit ']'),
    .plus wsRE,
    .lit '-',
    .plus wsRE,
    .group 2 (.plus (.cls true wsChars [])),
    .opt (reSeq [.plus wsRE, .lit '[', .group 3 (.plus .anyc), .lit ']'])]

/-- `src/changelog.rs` `UNRELEASED_HEADER`: `(?i)^\[?unreleased]?$`. -/
def pcUnreleasedHeaderRE : RE :=
  reSeq [.opt (.lit '['), litStrCI "unreleased", .opt (.lit ']')]

/-- `src/changelog.rs` `VERSIONED_RELEASE_HEADER`:
`^\[?(?P<version>\d+\.\d+\.\d+)]?\s+-\s+(?P<year>\d{4})[-⁄](?P<month>\d{2})[-⁄](?P<day>\d{2})(?:\s+\[(?P<tag>.+)])?$`
with groups version=1, year=2, month=3, day=4, tag=5.  (The date
separator classes contain a hyphen and an ordinary forward slash; the
slash is typeset as `⁄` above only because `-` followed by `/` would
close this comment.) -/
def pcVersionedReleaseHeaderRE : RE :=
  reSeq [
    .opt (.lit '['),
    .group 1 (reSeq [.plus digitRE, .lit '.', .plus digitRE, .lit '.', .plus digitRE]),
    .opt (.lit ']'),
    .plus wsRE,
    .lit '-',
    .plus wsRE,
    .group 2 (reRep 4 digitRE),
    .cls false ['-', '/'] [],
    .group 3 (reRep 2 digitRE),
    .cls false ['-', '/'] [],
    .group 4 (reRep 2 digitRE),
    .opt (reSeq [.plus wsRE, .lit '[', .group 5 (.plus .anyc), .lit ']'])]

/-! ## Markdown block nodes (interface of the external markdown parser)

`src/parser.rs` observes a block node only through: its variant (heading
with depth, paragraph, list, link-reference definition, anything else),
`Node::to_string()` (the flattened inline text), re-rendering with
`mdast_util_to_markdown::to_markdown` (fallible), and `Node::position()`.
A node is modelled by exactly those observations.  A list node also
carries the positions of its `ListItem` children, which only
`src/changelog.rs` consumes. -/

/-- The block-node variants distinguished by the source. -/
inductive NodeKind where
  | heading (depth : Nat)
  | paragraph
  | list (items : List (Option Pos))
  | definition (identifier : String) (url : String)
  | other
deriving DecidableEq, Repr

/-- A markdown block node, by its observable interface. -/
structure MdNode where
  kind : NodeKind
  /-- `Node::to_string()`. -/
  txt : String
  /-- `mdast_util_to_markdown::to_markdown(node)`, `none` on error. -/
  render : Option String
  /-- `Node::position()`. -/
  pos : Option Pos
deriving DecidableEq, Repr

/-- `fn to_markdown(node: &Node) -> String`: the re-rendered markdown with
trailing whitespace trimmed, or a fallback message on render failure. -/
def toMarkdown (n : MdNode) : String :=
  match n.render with
  | some s => trimRightStr s
  | none => "Error converting node to markdown"

/-- `str::split_ascii_whitespace`, as a token list. -/
def wsTokens (s : String) : List (List Char) :=
  (splitP Char.isWhitespace s.toList).filter (fun t => t ≠ [])

/-- `fn matches_markdown(node, markdown) -> bool`: whitespace-insensitive
comparison of the node's rendering against a fixed string. -/
def matchesMarkdown (n : MdNode) (markdown : String) : Bool :=
  match n.render with
  | some s => wsTokens s == wsTokens markdown
  | none => false

/-- `const CHANGELOG_TITLE`. -/
def CHANGELOG_TITLE : String := "Changelog"

/-- `const NOTABLE_CHANGES_TEXT`. -/
def NOTABLE_CHANGES_TEXT : String :=
  "All notable changes to this project will be documented in this file."

/-- `const ABOUT_FORMAT_TEXT`. -/
def ABOUT_FORMAT_TEXT : String :=
  "The format is based on [Keep a Changelog](https://keepachangelog.com/en/1.1.0/),\nand this project adheres to [Semantic Versioning](https://semver.org/spec/v2.0.0.html)."

/-- `const UNRELEASED_HEADER_TEXT`. -/
def UNRELEASED_HEADER_TEXT : String := "Unreleased"

/-! ## The concrete syntax tree -/

/-- Link-reference classification (`enum ReleaseLinkType`). -/
inductive ReleaseLinkType where
  | unreleasedLink (link : String)
  | versioned (version : String) (link : String)
deriving DecidableEq, Repr

/-- `enum TreeKind`.  `ReleaseVersion`, `ReleaseDate` and `ReleaseLink`
payloads are the validated strings. -/
inductive TreeKind where
  | error (msg : String)
  | title
  | changelogFile
  | notableChanges
  | aboutFormat
  | unreleased
  | unreleasedHeader
  | release
  | releaseHeader (version : String) (date : String) (tag : Option ReleaseTag)
  | changeGroup
  | changeGroupHeader (group : ChangeGroup)
  | changeGroupList
  | releaseLink (link : ReleaseLinkType)
deriving DecidableEq, Repr

mutual
/-- `struct Tree { kind, children }`. -/
inductive Tree where
  | mk (kind : TreeKind) (children : List Child)

/-- `enum Child`. -/
inductive Child where
  | markdown (node : MdNode)
  | tree (t : Tree)
  | dummy (pos : Pos)
end

/-- The kind of a tree. -/
def Tree.kind : Tree → TreeKind
  | .mk k _ => k

/-- The children of a tree. -/
def Tree.children : Tree → List Child
  | .mk _ cs => cs

/-- `Vec::push` on a tree's children. -/
def Tree.push (t : Tree) (c : Child) : Tree :=
  .mk t.kind (t.children ++ [c])

/-! ## Parser state and events -/

/-- `enum Event`. -/
inductive Event where
  | openE (kind : TreeKind)
  | close
  | advance
  | missing
deriving DecidableEq, Repr

/-- `struct Parser`: node sequence, cursor, fuel cell, event log, and the
input document's length. -/
structure PState where
  nodes : List MdNode
  pos : Nat
  fuel : Nat
  events : List Event
  docLength : Nat
deriving Repr

/-- `Parser::eof`. -/
def eofP (s : PState) : Bool := s.pos == s.nodes.length

/-- `Parser::nth`: asserts fuel is nonzero (model: `none` is the panic),
burns one unit and peeks `lookahead` nodes ahead (`Eof` is `none`). -/
def nth (lookahead : Nat) (s : PState) : Option (Option MdNode × PState) :=
  if s.fuel = 0 then none
  else some (s.nodes[s.pos + lookahead]?, { s with fuel := s.fuel - 1 })

/-- The node test that `Parser::at` applies, without the fuel accounting. -/
def atHolds (f : MdNode → Bool) (s : PState) : Bool :=
  match s.nodes[s.pos]? with
  | some n => f n
  | none => false

/-- `Parser::at`. -/
def atP (f : MdNode → Bool) (s : PState) : Option (Bool × PState) :=
  (nth 0 s).map (fun r =>
    (match r.1 with
     | some n => f n
     | none => false, r.2))

/-- `Parser::at_any`: `test_fns.iter().any(...)`, short-circuiting. -/
def atAny : List (MdNode → Bool) → PState → Option (Bool × PState)
  | [], s => some (false, s)
  | f :: fs, s =>
    (atP f s).bind (fun r => if r.1 then some (true, r.2) else atAny fs r.2)

/-- `Parser::advance`: asserts not at eof, refills the fuel, logs an
`Advance` event and moves the cursor. -/
def advanceP (s : PState) : Option PState :=
  if s.pos < s.nodes.length then
    some { s with fuel := 256, events := s.events ++ [.advance], pos := s.pos + 1 }
  else
    none

/-- `Parser::open`: returns the mark (index of the placeholder event). -/
def openM (s : PState) : Nat × PState :=
  (s.events.length,
   { s with events := s.events ++ [.openE (.error "Unclosed Event")] })

/-- `Parser::close`: retroactively writes the decided kind at the mark and
logs a `Close` event. -/
def closeM (m : Nat) (kind : TreeKind) (s : PState) : PState :=
  { s with events := (s.events.set m (.openE kind)) ++ [.close] }

/-- `Parser::advance_with_error`: wraps the advanced node in an `Error`
subtree whose message is computed from the node. -/
def advanceWithError (errFn : MdNode → String) (s : PState) : Option PState :=
  if s.pos < s.nodes.length then
    (nth 0 s).bind (fun r =>
      match r.1 with
      | some node =>
        let msg := errFn node
        let (m, s1) := openM r.2
        (advanceP s1).map (fun s2 => closeM m (.error msg) s2)
      | none => none)
  else
    none

/-- `Parser::capture_missing_node`: an `Error` subtree over a `Missing`
event; consumes no node and no fuel. -/
def captureMissing (msg : String) (s : PState) : PState :=
  let (m, s1) := openM s
  closeM m (.error msg) { s1 with events := s1.events ++ [.missing] }

/-- `Parser::eat`. -/
def eat (f : MdNode → Bool) (s : PState) : Option (Bool × PState) :=
  (atP f s).bind (fun r =>
    if r.1 then (advanceP r.2).map (fun s2 => (true, s2))
    else some (false, r.2))

/-- `Parser::expect`. -/
def expectP (f : MdNode → Bool) (errFn : MdNode → String) (s : PState) : Option PState :=
  (eat f s).bind (fun r =>
    if r.1 then some r.2
    else
      (nth 0 r.2).bind (fun r2 =>
        match r2.1 with
        | some _ => advanceWithError errFn r2.2
        | none => some r2.2))

/-! ## Node predicates and error messages -/

/-- `matches!(node, Node::Heading(h) if h.depth == d)`. -/
def isHeading (d : Nat) (n : MdNode) : Bool :=
  match n.kind with
  | .heading d' => d' == d
  | _ => false

/-- `matches!(node, Node::Paragraph(_))`. -/
def isParagraph (n : MdNode) : Bool :=
  match n.kind with
  | .paragraph => true
  | _ => false

/-- `matches!(node, Node::List(_))`. -/
def isList (n : MdNode) : Bool :=
  match n.kind with
  | .list _ => true
  | _ => false

/-- `matches!(node, Node::Definition(_))`. -/
def isDefinition (n : MdNode) : Bool :=
  match n.kind with
  | .definition _ _ => true
  | _ => false

/-- `fn format_change_group_headers() -> String`. -/
def formatChangeGroupHeaders : String :=
  String.intercalate ", "
    (([ChangeGroup.added, .changed, .deprecated, .fixed, .removed, .security]).map
      (fun v => "### " ++ v.display))

/-- Missing-title message (`title`, else branch). -/
def missingTitleMsg : String :=
  "The following markdown is missing:\n\n# " ++ CHANGELOG_TITLE ++
    "\n\nIt must appear at the start of the document."

/-- Missing-notable-changes message (`notable_changes_text`, else branch). -/
def missingNotableMsg : String :=
  "The following markdown is missing:\n\n" ++ NOTABLE_CHANGES_TEXT ++
    "\n\nIt must appear after:\n\n# " ++ CHANGELOG_TITLE

/-- Missing-about-format message (`about_format_text`, else branch). -/
def missingAboutMsg : String :=
  "The following markdown is missing:\n\n" ++ ABOUT_FORMAT_TEXT ++
    "\n\nIt must appear after:\n\n" ++ NOTABLE_CHANGES_TEXT

/-- Missing-unreleased-header message (`unreleased`, else branch). -/
def missingUnreleasedMsg : String :=
  "The following markdown is missing:\n\n## " ++ UNRELEASED_HEADER_TEXT ++
    "\n\nIt must appear after:\n\n" ++ ABOUT_FORMAT_TEXT

/-- Missing change-group list message (`change_group`). -/
def missingListMsg : String :=
  "Change Group is missing the required list of changes"

/-- Missing change-group message (`change_group`, else branch). -/
def missingChangeGroupMsg : String :=
  "Missing one of the following change groups: " ++ formatChangeGroupHeaders

/-! ## The recursive-descent grammar -/

/-- `fn title(p)`. -/
def titleP (s : PState) : Option PState :=
  (atP (isHeading 1) s).bind (fun r =>
    if r.1 then
      let (m, s1) := openM r.2
      (expectP (fun n => n.txt == CHANGELOG_TITLE)
        (fun n => "Expected '# " ++ CHANGELOG_TITLE ++ "' but found '# " ++ n.txt ++ "'")
        s1).map (closeM m .title)
    else
      some (captureMissing missingTitleMsg r.2))

/-- `fn notable_changes_text(p)`; the `&&` of the source short-circuits. -/
def notableChangesTextP (s : PState) : Option PState :=
  (atP isParagraph s).bind (fun r =>
    if r.1 then
      (atP (fun n => matchesMarkdown n ABOUT_FORMAT_TEXT) r.2).bind (fun r2 =>
        if !r2.1 then
          let (m, s1) := openM r2.2
          (expectP (fun n => n.txt == NOTABLE_CHANGES_TEXT)
            (fun n => "Expected the following markdown:\n\n" ++ NOTABLE_CHANGES_TEXT ++
              "\n\nbut was:\n\n" ++ toMarkdown n)
            s1).map (closeM m .notableChanges)
        else
          some (captureMissing missingNotableMsg r2.2))
    else
      some (captureMissing missingNotableMsg r.2))

/-- `fn about_format_text(p)`. -/
def aboutFormatTextP (s : PState) : Option PState :=
  (atP isParagraph s).bind (fun r =>
    if r.1 then
      let (m, s1) := openM r.2
      (expectP (fun n => matchesMarkdown n ABOUT_FORMAT_TEXT)
        (fun n => "Expected the following markdown:\n\n" ++ ABOUT_FORMAT_TEXT ++
          "\n\nbut was:\n\n" ++ toMarkdown n)
        s1).map (closeM m .aboutFormat)
    else
      some (captureMissing missingAboutMsg r.2))

/-- `fn change_group_header(p)`. -/
def changeGroupHeaderP (s : PState) : Option PState :=
  (nth 0 s).bind (fun r =>
    match r.1 with
    | some node =>
      match ChangeGroup.fromStr node.txt with
      | some g =>
        let (m, s1) := openM r.2
        (advanceP s1).map (closeM m (.changeGroupHeader g))
      | none =>
        advanceWithError
          (fun n => "Expected one of the following change groups:\n\n" ++
            formatChangeGroupHeaders ++ "\n\nbut found:\n\n" ++ toMarkdown n)
          r.2
    | none =>
      advanceWithError
        (fun n => "Expected one of the following change groups:\n\n" ++
          formatChangeGroupHeaders ++ "\n\nbut found:\n\n" ++ toMarkdown n)
        r.2)

/-- `fn change_group(p)`. -/
def changeGroupP (s : PState) : Option PState :=
  (atP (isHeading 3) s).bind (fun r =>
    if r.1 then
      let (m, s1) := openM r.2
      (changeGroupHeaderP s1).bind (fun s2 =>
        (atP isList s2).bind (fun r2 =>
          if r2.1 then
            let (m2, s3) := openM r2.2
            (advanceP s3).map (fun s4 => closeM m .changeGroup (closeM m2 .changeGroupList s4))
          else
            some (closeM m .changeGroup (captureMissing missingListMsg r2.2))))
    else
      some (captureMissing missingChangeGroupMsg r.2))

/-- `fn release_header(p)`; at `Eof` the `if let` falls through and nothing
happens. -/
def releaseHeaderP (s : PState) : Option PState :=
  (nth 0 s).bind (fun r =>
    match r.1 with
    | some node =>
      match reMatches releaseHeaderRE node.txt with
      | some caps =>
        match capStr caps 1 with
        | none => none
        | some versionStr =>
          match ReleaseVersion.fromStr versionStr with
          | .error e =>
            advanceWithError
              (fun _ => "Invalid release version '" ++ versionStr ++ "' - " ++ e) r.2
          | .ok version =>
            match capStr caps 2 with
            | none => none
            | some dateStr =>
              match ReleaseDate.fromStr dateStr with
              | .error e =>
                advanceWithError
                  (fun _ => "Invalid release date '" ++ dateStr ++ "' - " ++ e) r.2
              | .ok date =>
                match capStr caps 3 with
                | some tagStr =>
                  match ReleaseTag.fromStr tagStr with
                  | none =>
                    advanceWithError
                      (fun _ => "Invalid release tag '" ++ tagStr ++ "' - " ++
                        "Could not parse release tag '" ++ tagStr ++
                        "'\nExpected: YANKED | NO CHANGES") r.2
                  | some tag =>
                    let (m, s1) := openM r.2
                    (advanceP s1).map (closeM m (.releaseHeader version date (some tag)))
                | none =>
                  let (m, s1) := openM r.2
                  (advanceP s1).map (closeM m (.releaseHeader version date none))
      | none =>
        advanceWithError
          (fun n => "Expected Release Header with the format '[<semver>] - <YYYY>-<MM>-<DD> - [<tag>]' but found '" ++
            toMarkdown n ++ "'") r.2
    | none => some r.2)

/-- The loop body shared textually by `unreleased` and `release`: change
groups until a depth-2 heading or definition, recovering by one node per
error.  The `Nat` argument only bounds the iteration count; every
non-break iteration advances the cursor, so `nodes.length + 1` is always
sufficient. -/
def sectionLoop (errFn : MdNode → String) : Nat → PState → Option PState
  | 0, s => if eofP s then some s else none
  | n + 1, s =>
    if eofP s then some s
    else
      (atP (isHeading 3) s).bind (fun r =>
        if r.1 then (changeGroupP r.2).bind (sectionLoop errFn n)
        else
          (atAny [isHeading 2, isDefinition] r.2).bind (fun r2 =>
            if r2.1 then some r2.2
            else (advanceWithError errFn r2.2).bind (sectionLoop errFn n)))

/-- Error message of the unreleased-section loop. -/
def unreleasedLoopErr (n : MdNode) : String :=
  "Unexpected markdown - '## " ++ UNRELEASED_HEADER_TEXT ++
    "' should be followed by either a Change Group, Release, or Release Link but was:\n\n" ++
    toMarkdown n

/-- Error message of the release-section loop. -/
def releaseLoopErr (n : MdNode) : String :=
  "Unexpected markdown - Release should be followed by either a Change Group, Release, or Release Link but was:\n\n" ++
    toMarkdown n

/-- `fn unreleased(p)`. -/
def unreleasedP (s : PState) : Option PState :=
  (atP (isHeading 2) s).bind (fun r =>
    if r.1 then
      (atP (fun n => reIsMatch releaseHeaderRE n.txt) r.2).bind (fun r2 =>
        if !r2.1 then
          let (m, s1) := openM r2.2
          let (m2, s2) := openM s1
          (expectP (fun n => reIsMatch unreleasedHeaderRE n.txt)
            (fun n => "Expected '## " ++ UNRELEASED_HEADER_TEXT ++ "' but found '" ++
              toMarkdown n ++ "'")
            s2).bind (fun s3 =>
            let s4 := closeM m2 .unreleasedHeader s3
            (sectionLoop unreleasedLoopErr (s4.nodes.length + 1) s4).map
              (closeM m .unreleased))
        else
          some (captureMissing missingUnreleasedMsg r2.2))
    else
      some (captureMissing missingUnreleasedMsg r.2))

/-- `fn release(p)`; when the cursor is not at a depth-2 heading the
function does nothing. -/
def releaseP (s : PState) : Option PState :=
  (atP (isHeading 2) s).bind (fun r =>
    if r.1 then
      let (m, s1) := openM r.2
      (releaseHeaderP s1).bind (fun s2 =>
        (sectionLoop releaseLoopErr (s2.nodes.length + 1) s2).map (closeM m .release))
    else
      some r.2)

/-- `fn release_link(p)`. -/
def releaseLinkP (s : PState) : Option PState :=
  (nth 0 s).bind (fun r =>
    match r.1 with
    | some node =>
      match node.kind with
      | .definition identifier url =>
        match ReleaseLink.fromStr url with
        | .error e =>
          advanceWithError
            (fun _ => "Invalid url '" ++ url ++ "' in release link - " ++ e) r.2
        | .ok link =>
          if lowerStr identifier == lowerStr UNRELEASED_HEADER_TEXT then
            let (m, s1) := openM r.2
            (advanceP s1).map (closeM m (.releaseLink (.unreleasedLink link)))
          else
            match ReleaseVersion.fromStr identifier with
            | .ok v =>
              let (m, s1) := openM r.2
              (advanceP s1).map (closeM m (.releaseLink (.versioned v link)))
            | .error e =>
              advanceWithError
                (fun _ => "Invalid version '" ++ identifier ++ "' in release link - " ++ e)
                r.2
      | _ =>
        advanceWithError
          (fun n => "Expected Release Link but found:\n\n" ++ toMarkdown n) r.2
    | none =>
      advanceWithError
        (fun n => "Expected Release Link but found:\n\n" ++ toMarkdown n) r.2)

/-- Error message of the top-level loop. -/
def changelogFileLoopErr (n : MdNode) : String :=
  "Unexpected markdown - Expected either a Release Header or Release Link here but found:\n\n" ++
    toMarkdown n

/-- The `(Release | ReleaseLink)*` loop of `changelog_file`. -/
def changelogFileLoop : Nat → PState → Option PState
  | 0, s => if eofP s then some s else none
  | n + 1, s =>
    if eofP s then some s
    else
      (atP (isHeading 2) s).bind (fun r =>
        if r.1 then (releaseP r.2).bind (changelogFileLoop n)
        else
          (atP isDefinition r.2).bind (fun r2 =>
            if r2.1 then (releaseLinkP r2.2).bind (changelogFileLoop n)
            else (advanceWithError changelogFileLoopErr r2.2).bind (changelogFileLoop n)))

/-- `fn changelog_file(p)`. -/
def changelogFileP (s : PState) : Option PState :=
  let (m, s1) := openM s
  (titleP s1).bind (fun s2 =>
    (notableChangesTextP s2).bind (fun s3 =>
      (aboutFormatTextP s3).bind (fun s4 =>
        (unreleasedP s4).bind (fun s5 =>
          (changelogFileLoop (s5.nodes.length + 1) s5).map (closeM m .changelogFile)))))

/-! ## Building the tree from the event log -/

/-- `fn get_dummy_node_position`. -/
def getDummyNodePosition (positionBefore : Option Pos) (docLength : Nat) : Pos :=
  match positionBefore with
  | some position =>
    ⟨⟨position.stop.line + 1, 1, clampNat (position.stop.offset + 1) 0 docLength⟩,
     ⟨position.stop.line + 1, 1, clampNat (position.stop.offset + 1) 0 docLength⟩⟩
  | none => ⟨⟨1, 1, 0⟩, ⟨1, 1, 0⟩⟩

/-- The event-processing loop of `Parser::build_tree`: a stack of open
frames, the unconsumed nodes, and the position of the most recently
advanced node.  `none` models the `expect` panics. -/
def processEvents (docLength : Nat) :
    List Event → List Tree → List MdNode → Option Pos →
    Option (List Tree × List MdNode × Option Pos)
  | [], stack, ns, prev => some (stack, ns, prev)
  | .openE k :: rest, stack, ns, prev =>
    processEvents docLength rest (Tree.mk k [] :: stack) ns prev
  | .close :: rest, t :: parent :: stack, ns, prev =>
    processEvents docLength rest (parent.push (.tree t) :: stack) ns prev
  | .close :: _, _, _, _ => none
  | .advance :: rest, t :: stack, n :: ns, _ =>
    processEvents docLength rest (t.push (.markdown n) :: stack) ns n.pos
  | .advance :: _, _, _, _ => none
  | .missing :: rest, t :: stack, ns, prev =>
    processEvents docLength rest
      (t.push (.dummy (getDummyNodePosition prev docLength)) :: stack) ns prev
  | .missing :: _, [], _, _ => none

/-- `Parser::build_tree`: pops the final `Close`, folds the remaining
events, and checks that exactly one tree remains and every node was
consumed. -/
def buildTree (s : PState) : Option Tree :=
  match s.events.getLast? with
  | some .close =>
    (processEvents s.docLength s.events.dropLast [] s.nodes none).bind (fun r =>
      match r with
      | ([t], [], _) => some t
      | _ => none)
  | _ => none

/-- `fn parse(contents: &str) -> Tree`, over the block nodes produced by the
external markdown parser for the input (and the input's length).  The
parser state starts at position 0 with fuel 256 and an empty event log. -/
def parse (nodes : List MdNode) (docLength : Nat) : Option Tree :=
  (changelogFileP ⟨nodes, 0, 256, [], docLength⟩).bind buildTree

/-! ## Tree traversal and positions -/

mutual
/-- The DFS flattening underlying `Tree::child_iter` (the recursive
`append` helper): a child followed by, for subtree children, the
flattening of the subtree's children. -/
def Child.flatten : Child → List Child
  | .markdown n => [.markdown n]
  | .dummy p => [.dummy p]
  | .tree t => .tree t :: Tree.flattenChildren t

/-- The flattenings of a tree's children, concatenated. -/
def Tree.flattenChildren : Tree → List Child
  | .mk _ cs => flattenList cs

/-- The flattenings of a child list, concatenated. -/
def flattenList : List Child → List Child
  | [] => []
  | c :: rest => Child.flatten c ++ flattenList rest
end

/-- `Tree::child_iter`: DFS over all descendants. -/
def Tree.childIter (t : Tree) : List Child :=
  flattenList t.children

/-- Extract the subtree of a child, if any. -/
def Child.asTree : Child → Option Tree
  | .tree t => some t
  | _ => none

/-- `Tree::tree_iter`: all descendant subtrees, DFS order. -/
def Tree.treeIter (t : Tree) : List Tree :=
  t.childIter.filterMap Child.asTree

/-- The position a child contributes to `Tree::position` (subtree
boundaries contribute nothing). -/
def Child.posOf : Child → Option Pos
  | .markdown n => n.pos
  | .dummy p => some p
  | .tree _ => none

/-- `Tree::position`: span from the first position-bearing descendant to
the last, with the `DEFAULT_POSITION` fallback. -/
def Tree.position (t : Tree) : Pos :=
  match t.childIter.filterMap Child.posOf with
  | [] => defaultPosition
  | p :: rest => ⟨p.start, ((rest.getLast?).getD p).stop⟩

mutual
/-- The markdown nodes attached under a child, DFS (document) order. -/
def Child.mds : Child → List MdNode
  | .markdown n => [n]
  | .dummy _ => []
  | .tree t => Tree.mds t

/-- The markdown nodes attached in a tree, DFS (document) order. -/
def Tree.mds : Tree → List MdNode
  | .mk _ cs => mdsList cs

/-- The markdown nodes attached under a child list, in order. -/
def mdsList : List Child → List MdNode
  | [] => []
  | c :: rest => Child.mds c ++ mdsList rest
end

mutual
/-- The synthesized dummy positions under a child, DFS order. -/
def Child.dummies : Child → List Pos
  | .markdown _ => []
  | .dummy p => [p]
  | .tree t => Tree.dummies t

/-- The synthesized dummy positions in a tree, DFS order. -/
def Tree.dummies : Tree → List Pos
  | .mk _ cs => dummiesList cs

/-- The synthesized dummy positions under a child list, in order. -/
def dummiesList : List Child → List Pos
  | [] => []
  | c :: rest => Child.dummies c ++ dummiesList rest
end

/-! ## Diagnostics -/

/-- `pub struct Diagnostic`. -/
structure Diagnostic where
  message : String
  position : Pos
deriving DecidableEq, Repr

/-- Whether a child is a `ReleaseHeader` subtree tagged `[NO CHANGES]`
(the `matches!` of `validate_change_groups`). -/
def isNoChangesHeader (c : Child) : Bool :=
  match c with
  | .tree (.mk (.releaseHeader _ _ (some .noChanges)) _) => true
  | _ => false

/-- `fn validate_change_groups(tree, errors)`: flags duplicate change-group
headers inside one release/unreleased subtree, and a release with no change
groups and no `[NO CHANGES]` tag.  Returns the diagnostics it appends. -/
def validateChangeGroups (tree : Tree) : List Diagnostic :=
  let r := tree.treeIter.foldl
    (fun (acc : List ChangeGroup × List Diagnostic) tr =>
      match tr.kind with
      | .changeGroupHeader g =>
        if acc.1.contains g then
          (acc.1, acc.2 ++ [⟨"Duplicate change group found", tr.position⟩])
        else
          (acc.1 ++ [g], acc.2)
      | _ => acc)
    ([], [])
  if tree.kind == .release && r.1.isEmpty && !(tree.children.any isNoChangesHeader) then
    r.2 ++ [⟨"Release must have at least one change group listed or be tagged with [NO CHANGES]",
             tree.position⟩]
  else
    r.2

/-- The version-to-(release, link) map of `validate_release_links`
(`IndexMap`: insertion-ordered, lookup by key). -/
abbrev RLMap := List (String × (Option Tree × Option Tree))

/-- `IndexMap::get`. -/
def rlGet (map : RLMap) (k : String) : Option (Option Tree × Option Tree) :=
  (map.find? (fun e => e.1 == k)).map (fun e => e.2)

/-- `IndexMap::insert`: replaces in place when the key exists, appends
otherwise. -/
def rlInsert (map : RLMap) (k : String) (v : Option Tree × Option Tree) : RLMap :=
  if map.any (fun e => e.1 == k) then
    map.map (fun e => if e.1 == k then (e.1, v) else e)
  else
    map ++ [(k, v)]

/-- `fn validate_release_links(tree, errors)`: one pass recording, per
version, the first release header and first versioned link (flagging
duplicates), then a pass over the map flagging links without releases. -/
def validateReleaseLinks (tree : Tree) : List Diagnostic :=
  let r := tree.treeIter.foldl
    (fun (acc : RLMap × List Diagnostic) tr =>
      match tr.kind with
      | .releaseHeader v _ _ =>
        match rlGet acc.1 v with
        | some (some _, _) =>
          (acc.1, acc.2 ++ [⟨"Duplicate release version '" ++ v ++ "' found", tr.position⟩])
        | some (none, maybeLink) => (rlInsert acc.1 v (some tr, maybeLink), acc.2)
        | none => (rlInsert acc.1 v (some tr, none), acc.2)
      | .releaseLink (.versioned v _) =>
        match rlGet acc.1 v with
        | some (_, some _) =>
          (acc.1, acc.2 ++ [⟨"Duplicate release version link '" ++ v ++ "' found", tr.position⟩])
        | some (maybeRelease, none) => (rlInsert acc.1 v (maybeRelease, some tr), acc.2)
        | none => (rlInsert acc.1 v (none, some tr), acc.2)
      | _ => acc)
    ([], [])
  r.2 ++ r.1.flatMap (fun e =>
    match e.2 with
    | (none, some releaseLink) =>
      [⟨"Release link version does not match any listed releases", releaseLink.position⟩]
    | _ => [])

/-- `Tree::get_diagnostics`: asserts the root kind is `ChangelogFile`
(model: `none` is the panic), then collects `Error` subtrees and the
semantic validations. -/
def getDiagnostics (t : Tree) : Option (List Diagnostic) :=
  if t.kind == .changelogFile then
    let errs := t.treeIter.foldl
      (fun acc tr =>
        match tr.kind with
        | .error msg => acc ++ [⟨msg, tr.position⟩]
        | .release => acc ++ validateChangeGroups tr
        | .unreleased => acc ++ validateChangeGroups tr
        | _ => acc)
      []
    some (errs ++ validateReleaseLinks t)
  else
    none

/-! ## The Changelog data model (src/changelog.rs, src/release.rs,
src/releases.rs, src/unreleased.rs, src/changes.rs)

`Changes` is an insertion-ordered map from change group to items;
`Releases` an insertion-ordered map from version to release.  Both are
modelled as association lists.  Validated wrapper values (versions,
dates, links) are represented by their canonical strings. -/

/-- `Changes::add` / `changes.entry(group).or_default().push(item)`. -/
def changesAdd (cs : List (ChangeGroup × List String)) (g : ChangeGroup) (item : String) :
    List (ChangeGroup × List String) :=
  if cs.any (fun e => e.1 == g) then
    cs.map (fun e => if e.1 == g then (e.1, e.2 ++ [item]) else e)
  else
    cs ++ [(g, [item])]

/-- `IndexMap::insert` on an association list: replaces the value in place
when the key exists, appends otherwise. -/
def alInsert {α : Type} (m : List (String × α)) (k : String) (v : α) : List (String × α) :=
  if m.any (fun e => e.1 == k) then
    m.map (fun e => if e.1 == k then (e.1, v) else e)
  else
    m ++ [(k, v)]

/-- `IndexMap::extend`. -/
def alExtend {α : Type} (m extra : List (String × α)) : List (String × α) :=
  extra.foldl (fun acc e => alInsert acc e.1 e.2) m

/-- `struct Unreleased` (src/unreleased.rs). -/
structure Unreleased where
  link : Option String := none
  changes : List (ChangeGroup × List String) := []
deriving DecidableEq, Repr

/-- `struct Release` (src/release.rs). -/
structure Release where
  version : String
  date : String
  tag : Option ReleaseTag := none
  link : Option String := none
  changes : List (ChangeGroup × List String) := []
deriving DecidableEq, Repr

/-- `struct Changelog`. -/
structure Changelog where
  unreleased : Unreleased := {}
  releases : List (String × Release) := []
deriving DecidableEq, Repr

/-! ## Promotion (Changelog::promote_unreleased) -/

/-- `pub struct PromoteOptions`. -/
structure PromoteOptions where
  version : String
  date : Option String := none
  tag : Option ReleaseTag := none
  link : Option String := none

/-- `pub struct PromoteUnreleasedError(Version)`. -/
structure PromoteUnreleasedError where
  version : String
deriving DecidableEq, Repr

/-- `Changelog::promote_unreleased`.  The Rust signature mutates `self` and
returns `Result<(), PromoteUnreleasedError>`; that is modelled by returning
the optional error together with the final state of the changelog.
`ReleaseDate::today()` reads the clock, so the current date is passed in. -/
def promoteUnreleased (c : Changelog) (promoteOptions : PromoteOptions) (today : String) :
    Option PromoteUnreleasedError × Changelog :=
  if c.releases.any (fun e => e.1 == promoteOptions.version) then
    (some ⟨promoteOptions.version⟩, c)
  else
    let newRelease : Release :=
      { version := promoteOptions.version
        date := promoteOptions.date.getD today
        tag := promoteOptions.tag
        link := promoteOptions.link
        changes := c.unreleased.changes }
    let c1 := { c with unreleased := { c.unreleased with changes := [] } }
    let newReleases := alExtend [(newRelease.version, newRelease)] c1.releases
    (none, { c1 with releases := newReleases })

/-! ## The legacy document parser (src/changelog.rs, `parse_changelog`),
used by `Changelog::from_str` -/

/-- `enum ParseChangelogErrorInternal` (payloads kept; display strings are
immaterial here). -/
inductive PCErr where
  | markdown (msg : String)
  | invalidChangeGroup (value : String)
  | noMatchForReleaseHeading (value : String)
  | version (heading value err : String)
  | invalidReleaseDate (heading : String) (y m d : Nat)
  | invalidReleaseTag (heading value : String)
deriving DecidableEq, Repr

/-- `enum ReleaseHeaderType`; the date is carried as its canonical
`YYYY-MM-DD` rendering (the old chrono-backed `ReleaseDate` displays with
`%Y-%m-%d`; that `Display` impl is not under `src/`, modelled from the
spec's `YYYY-MM-DD` wire format). -/
inductive ReleaseHeaderType where
  | unreleasedH
  | versioned (version : String) (date : String) (tag : Option ReleaseTag)
deriving DecidableEq, Repr

/-- Zero-padded two-digit rendering. -/
def pad2 (n : Nat) : String :=
  if n < 10 then "0" ++ toString n else toString n

/-- Zero-padded four-digit rendering. -/
def pad4 (n : Nat) : String :=
  if n < 10 then "000" ++ toString n
  else if n < 100 then "00" ++ toString n
  else if n < 1000 then "0" ++ toString n
  else toString n

/-- `%Y-%m-%d`. -/
def dateDisplay (y m d : Nat) : String :=
  pad4 y ++ "-" ++ pad2 m ++ "-" ++ pad2 d

/-- `fn parse_release_heading`.  The `\d{4}`/`\d{2}` captures always parse
as integers, and UTC dates are never ambiguous, so the year/month/day
parse errors and the `Ambiguous` branch of the source are unreachable;
`with_ymd_and_hms` succeeding is calendar validity. -/
def parseReleaseHeading (heading : String) : Except PCErr ReleaseHeaderType :=
  if reIsMatch pcUnreleasedHeaderRE heading then
    .ok .unreleasedH
  else
    match reMatches pcVersionedReleaseHeaderRE heading with
    | some caps =>
      match capStr caps 1, capStr caps 2, capStr caps 3, capStr caps 4 with
      | some versionStr, some yearStr, some monthStr, some dayStr =>
        if semverValid versionStr then
          match decimalNat yearStr.toList, decimalNat monthStr.toList,
              decimalNat dayStr.toList with
          | some y, some m, some d =>
            if ymdOk y m d then
              match capStr caps 5 with
              | some tagStr =>
                match lowerStr tagStr with
                | "no changes" => .ok (.versioned versionStr (dateDisplay y m d) (some .noChanges))
                | "yanked" => .ok (.versioned versionStr (dateDisplay y m d) (some .yanked))
                | _ => .error (.invalidReleaseTag heading tagStr)
              | none => .ok (.versioned versionStr (dateDisplay y m d) none)
            else
              .error (.invalidReleaseDate heading y m d)
          | _, _, _ => .error (.invalidReleaseDate heading 0 0 0)
        else
          .error (.version heading versionStr "not a semver version")
      | _, _, _, _ => .error (.noMatchForReleaseHeading heading)
    | none => .error (.noMatchForReleaseHeading heading)

/-- `fn parse_change_group_heading`. -/
def parseChangeGroupHeading (heading : String) : Except PCErr ChangeGroup :=
  match lowerStr (trimStr heading) with
  | "added" => .ok .added
  | "changed" => .ok .changed
  | "deprecated" => .ok .deprecated
  | "removed" => .ok .removed
  | "fixed" => .ok .fixed
  | "security" => .ok .security
  | _ => .error (.invalidChangeGroup heading)

/-- `enum ReleaseLinkType` of src/changelog.rs. -/
inductive PCReleaseLinkType where
  | unreleasedL (link : String)
  | versionedL (version : String) (link : String)
deriving DecidableEq, Repr

/-- `fn parse_release_link`. -/
def parseReleaseLink (version url : String) : Option PCReleaseLinkType :=
  if lowerStr version == "unreleased" then
    if uriValid url then some (.unreleasedL url) else none
  else if semverValid version then
    if uriValid url then some (.versionedL version url) else none
  else
    none

/-- The item text of one list item:
`input[start.offset..end.offset].trim_start_matches(['-', '*', ' ']).trim_end()`.
Offsets are byte offsets in the source; the concrete documents used here
are ASCII, where byte and character offsets coincide. -/
def itemText (input : String) (p : Pos) : String :=
  let sliced := (input.toList.drop p.start.offset).take (p.stop.offset - p.start.offset)
  let stripped := sliced.dropWhile (fun c => c = '-' || c = '*' || c = ' ')
  String.mk (stripped.reverse.dropWhile Char.isWhitespace).reverse

/-- The inner `while root_iter.peek().is_some_and(is_list_node)` loop of
`parse_changelog`: consume consecutive list nodes, pushing each list
item's text under the current change group. -/
def pcTakeLists (input : String) (g : ChangeGroup) :
    List MdNode → List (ChangeGroup × List String) →
    (List (ChangeGroup × List String) × List MdNode)
  | [], changes => (changes, [])
  | n :: rest, changes =>
    match n.kind with
    | .list items =>
      let changes' := items.foldl
        (fun acc it =>
          match it with
          | some p => changesAdd acc g (itemText input p)
          | none => acc)
        changes
      pcTakeLists input g rest changes'
    | _ => (changes, n :: rest)

/-- The `while root_iter.peek().is_some_and(is_change_group_heading)` loop
of `parse_changelog`.  The `Nat` bounds the iteration count; each
iteration consumes at least the heading node, so `nodes.length + 1` is
always enough. -/
def pcTakeGroups (input : String) :
    Nat → List MdNode → List (ChangeGroup × List String) →
    Except PCErr (List (ChangeGroup × List String) × List MdNode)
  | 0, ns, changes => .ok (changes, ns)
  | _ + 1, [], changes => .ok (changes, [])
  | fuel + 1, n :: rest, changes =>
    if isHeading 3 n then
      match parseChangeGroupHeading n.txt with
      | .error e => .error e
      | .ok g =>
        let r := pcTakeLists input g rest changes
        pcTakeGroups input fuel r.2 r.1
    else
      .ok (changes, n :: rest)

/-- Accumulator of the top-level loop of `parse_changelog`. -/
structure PCAcc where
  unreleased : Option Unreleased
  unreleasedLink : Option String
  releases : List (String × Release)
  releaseLinks : List (String × String)

/-- The top-level `while root_iter.peek().is_some()` loop of
`parse_changelog`.  The `Nat` bounds the iteration count; each iteration
consumes at least one node. -/
def pcLoop (input : String) : Nat → List MdNode → PCAcc → Except PCErr PCAcc
  | 0, _, acc => .ok acc
  | _ + 1, [], acc => .ok acc
  | fuel + 1, n :: rest, acc =>
    if isHeading 2 n then
      match parseReleaseHeading n.txt with
      | .error e => .error e
      | .ok rht =>
        match pcTakeGroups input (rest.length + 1) rest [] with
        | .error e => .error e
        | .ok (changes, rest2) =>
          match rht with
          | .unreleasedH =>
            pcLoop input fuel rest2
              { acc with unreleased := some { link := none, changes := changes } }
          | .versioned v date tag =>
            pcLoop input fuel rest2
              { acc with
                releases := alInsert acc.releases v
                  { version := v, date := date, tag := tag, link := none, changes := changes } }
    else
      match n.kind with
      | .definition identifier url =>
        match parseReleaseLink identifier url with
        | some (.unreleasedL u) =>
          pcLoop input fuel rest { acc with unreleasedLink := some u }
        | some (.versionedL v u) =>
          pcLoop input fuel rest { acc with releaseLinks := alInsert acc.releaseLinks v u }
        | none => pcLoop input fuel rest acc
      | _ => pcLoop input fuel rest acc

/-- `fn parse_changelog(input) -> Result<Changelog, ...>` over the block
nodes the external markdown parser yields for `input` (the children of
the root node; a non-`Root` result leaves every accumulator empty, i.e.
the empty node list).  After the loop, the unreleased link and the
release links (a `HashMap`, used only for keyed lookup) are attached. -/
def parseChangelog (nodes : List MdNode) (input : String) : Except PCErr Changelog :=
  match pcLoop input (nodes.length + 1) nodes ⟨none, none, [], []⟩ with
  | .error e => .error e
  | .ok acc =>
    let unre : Unreleased :=
      match acc.unreleased with
      | some u => { u with link := acc.unreleasedLink }
      | none => {}
    let rels := acc.releases.map (fun e =>
      match acc.releaseLinks.find? (fun l => l.1 == e.1) with
      | some l => (e.1, { e.2 with link := some l.2 })
      | none => e)
    .ok { unreleased := unre, releases := rels }

/-! ## Concrete documents

Block-node lists produced by the external markdown parser for three small
documents, with positions (1-based line/column, 0-based offsets) as
`to_mdast` reports them.  All documents are ASCII.  In headings written
`## [x.y.z] - d`, the bracketed part becomes a link reference (and
`Node::to_string()` drops the brackets) exactly when the document contains
a matching link-reference definition. -/

/-- The flattened inline text of the `ABOUT_FORMAT_TEXT` paragraph
(`Node::to_string()` drops link markup). -/
def aboutTxtFlat : String :=
  "The format is based on Keep a Changelog,\nand this project adheres to Semantic Versioning."

/-- `# Changelog` at line 1. -/
def nTitle : MdNode :=
  { kind := .heading 1, txt := "Changelog", render := some "# Changelog"
    pos := some ⟨⟨1, 1, 0⟩, ⟨1, 12, 11⟩⟩ }

/-- The notable-changes paragraph at line 3. -/
def nNotable : MdNode :=
  { kind := .paragraph, txt := NOTABLE_CHANGES_TEXT, render := some NOTABLE_CHANGES_TEXT
    pos := some ⟨⟨3, 1, 13⟩, ⟨3, 69, 81⟩⟩ }

/-- The about-format paragraph at lines 5-6. -/
def nAbout : MdNode :=
  { kind := .paragraph, txt := aboutTxtFlat, render := some ABOUT_FORMAT_TEXT
    pos := some ⟨⟨5, 1, 83⟩, ⟨6, 88, 251⟩⟩ }

/-- `## Unreleased` at line 8. -/
def nUnreleased : MdNode :=
  { kind := .heading 2, txt := "Unreleased", render := some "## Unreleased"
    pos := some ⟨⟨8, 1, 253⟩, ⟨8, 14, 266⟩⟩ }

/-- `## [1.0.0] - 2000-01-01` at line 10 of the duplicated-change-group
document; no definition matches, so `to_string()` keeps the brackets. -/
def nDGRelease : MdNode :=
  { kind := .heading 2, txt := "[1.0.0] - 2000-01-01",
    render := some "## \\[1.0.0] - 2000-01-01"
    pos := some ⟨⟨10, 1, 268⟩, ⟨10, 24, 291⟩⟩ }

/-- First `### Fixed`, line 12. -/
def nDGFixed1 : MdNode :=
  { kind := .heading 3, txt := "Fixed", render := some "### Fixed"
    pos := some ⟨⟨12, 1, 293⟩, ⟨12, 10, 302⟩⟩ }

/-- `- test change`, line 14. -/
def nDGList1 : MdNode :=
  { kind := .list [some ⟨⟨14, 1, 304⟩, ⟨14, 14, 317⟩⟩], txt := "test change",
    render := some "* test change"
    pos := some ⟨⟨14, 1, 304⟩, ⟨14, 14, 317⟩⟩ }

/-- Second `### Fixed`, line 16. -/
def nDGFixed2 : MdNode :=
  { kind := .heading 3, txt := "Fixed", render := some "### Fixed"
    pos := some ⟨⟨16, 1, 319⟩, ⟨16, 10, 328⟩⟩ }

/-- `- duplicate`, line 18. -/
def nDGList2 : MdNode :=
  { kind := .list [some ⟨⟨18, 1, 330⟩, ⟨18, 12, 341⟩⟩], txt := "duplicate",
    render := some "* duplicate"
    pos := some ⟨⟨18, 1, 330⟩, ⟨18, 12, 341⟩⟩ }

/-- Document with a duplicated change group:
`# Changelog`, the two boilerplate paragraphs, `## Unreleased`,
`## [1.0.0] - 2000-01-01`, `### Fixed`, `- test change`, `### Fixed`,
`- duplicate` (total length 342). -/
def docDupGroup : List MdNode :=
  [nTitle, nNotable, nAbout, nUnreleased, nDGRelease, nDGFixed1, nDGList1, nDGFixed2, nDGList2]

/-- Length of the duplicated-change-group document. -/
def docDupGroupLen : Nat := 342

/-- `[2.0.0]: https://example.com/v2` at line 10 of the orphan-link
document. -/
def nOLDef : MdNode :=
  { kind := .definition "2.0.0" "https://example.com/v2",
    txt := "", render := some "[2.0.0]: https://example.com/v2"
    pos := some ⟨⟨10, 1, 268⟩, ⟨10, 32, 299⟩⟩ }

/-- Document with an orphan release link:
the four standard sections then `[2.0.0]: https://example.com/v2`
(total length 300); no release declares 2.0.0. -/
def docOrphanLink : List MdNode :=
  [nTitle, nNotable, nAbout, nUnreleased, nOLDef]

/-- Length of the orphan-link document. -/
def docOrphanLinkLen : Nat := 300

/-- `## [2.0.0] - 2017-06-20` at line 10 of the duplicated-link document;
the matching definitions below make it a link reference, so its
`to_string()` is bracketless. -/
def nDLRelease : MdNode :=
  { kind := .heading 2, txt := "2.0.0 - 2017-06-20",
    render := some "## [2.0.0] - 2017-06-20"
    pos := some ⟨⟨10, 1, 268⟩, ⟨10, 24, 291⟩⟩ }

/-- `### Changed`, line 12. -/
def nDLChanged : MdNode :=
  { kind := .heading 3, txt := "Changed", render := some "### Changed"
    pos := some ⟨⟨12, 1, 293⟩, ⟨12, 12, 304⟩⟩ }

/-- `- test change`, line 14. -/
def nDLList : MdNode :=
  { kind := .list [some ⟨⟨14, 1, 306⟩, ⟨14, 14, 319⟩⟩], txt := "test change",
    render := some "* test change"
    pos := some ⟨⟨14, 1, 306⟩, ⟨14, 14, 319⟩⟩ }

/-- First `[2.0.0]: https://example.com/v2`, line 16. -/
def nDLDef1 : MdNode :=
  { kind := .definition "2.0.0" "https://example.com/v2",
    txt := "", render := some "[2.0.0]: https://example.com/v2"
    pos := some ⟨⟨16, 1, 321⟩, ⟨16, 32, 352⟩⟩ }

/-- Second `[2.0.0]: https://example.com/v2`, line 17. -/
def nDLDef2 : MdNode :=
  { kind := .definition "2.0.0" "https://example.com/v2",
    txt := "", render := some "[2.0.0]: https://example.com/v2"
    pos := some ⟨⟨17, 1, 353⟩, ⟨17, 32, 384⟩⟩ }

/-- Document with a duplicated release link:
the four standard sections, `## [2.0.0] - 2017-06-20`, `### Changed`,
`- test change`, then the definition `[2.0.0]: https://example.com/v2`
twice, on lines 16 and 17 (total length 385). -/
def docDupLink : List MdNode :=
  [nTitle, nNotable, nAbout, nUnreleased, nDLRelease, nDLChanged, nDLList, nDLDef1, nDLDef2]

/-- Length of the duplicated-release-link document. -/
def docDupLinkLen : Nat := 385

/-! ## The trees the parser produces for the concrete documents -/

/-- The expected `Title` subtree. -/
def expTitle : Child := .tree (.mk .title [.markdown nTitle])

/-- The expected `NotableChanges` subtree. -/
def expNotable : Child := .tree (.mk .notableChanges [.markdown nNotable])

/-- The expected `AboutFormat` subtree. -/
def expAbout : Child := .tree (.mk .aboutFormat [.markdown nAbout])

/-- The expected `Unreleased` subtree with no change groups. -/
def expUnreleasedEmpty : Child :=
  .tree (.mk .unreleased [.tree (.mk .unreleasedHeader [.markdown nUnreleased])])

/-- The tree `parse` produces for the empty document: four `Error`
subtrees over dummies at the default position. -/
def emptyDocTree : Tree :=
  .mk .changelogFile
    [.tree (.mk (.error missingTitleMsg) [.dummy defaultPosition]),
     .tree (.mk (.error missingNotableMsg) [.dummy defaultPosition]),
     .tree (.mk (.error missingAboutMsg) [.dummy defaultPosition]),
     .tree (.mk (.error missingUnreleasedMsg) [.dummy defaultPosition])]

/-- The tree `parse` produces for the duplicated-change-group document. -/
def dupGroupTree : Tree :=
  .mk .changelogFile
    [expTitle, expNotable, expAbout, expUnreleasedEmpty,
     .tree (.mk .release
       [.tree (.mk (.releaseHeader "1.0.0" "2000-01-01" none) [.markdown nDGRelease]),
        .tree (.mk .changeGroup
          [.tree (.mk (.changeGroupHeader .fixed) [.markdown nDGFixed1]),
           .tree (.mk .changeGroupList [.markdown nDGList1])]),
        .tree (.mk .changeGroup
          [.tree (.mk (.changeGroupHeader .fixed) [.markdown nDGFixed2]),
           .tree (.mk .changeGroupList [.markdown nDGList2])])])]

/-- The tree `parse` produces for the orphan-link document. -/
def orphanLinkTree : Tree :=
  .mk .changelogFile
    [expTitle, expNotable, expAbout, expUnreleasedEmpty,
     .tree (.mk (.releaseLink (.versioned "2.0.0" "https://example.com/v2"))
       [.markdown nOLDef])]

/-- The tree `parse` produces for the duplicated-link document. -/
def dupLinkTree : Tree :=
  .mk .changelogFile
    [expTitle, expNotable, expAbout, expUnreleasedEmpty,
     .tree (.mk .release
       [.tree (.mk (.releaseHeader "2.0.0" "2017-06-20" none) [.markdown nDLRelease]),
        .tree (.mk .changeGroup
          [.tree (.mk (.changeGroupHeader .changed) [.markdown nDLChanged]),
           .tree (.mk .changeGroupList [.markdown nDLList])])]),
     .tree (.mk (.releaseLink (.versioned "2.0.0" "https://example.com/v2"))
       [.markdown nDLDef1]),
     .tree (.mk (.releaseLink (.versioned "2.0.0" "https://example.com/v2"))
       [.markdown nDLDef2])]


/-! ## Event-log well-formedness

Notions used to prove that `parse` always succeeds: the open/close depth
of an event segment, its advance count, and how one grammar function
extends the parser state. -/

/-- Number of `Advance` events in a segment. -/
def advCount : List Event → Nat
  | [] => 0
  | .advance :: r => advCount r + 1
  | _ :: r => advCount r

/-- Run the open/close depth across a segment starting from depth `d`;
`none` when a close occurs at depth 0. -/
def evDepthRun : List Event → Nat → Option Nat
  | [], d => some d
  | .openE _ :: r, d => evDepthRun r (d + 1)
  | .close :: r, d + 1 => evDepthRun r d
  | .close :: _, 0 => none
  | .advance :: r, d => evDepthRun r d
  | .missing :: r, d => evDepthRun r d

/-- A balanced event segment: every close matches an open within the
segment and all opens are closed. -/
def Seg (δ : List Event) : Prop := evDepthRun δ 0 = some 0

/-- How a grammar function moves the parser state: nodes and document
length unchanged, cursor monotone and within bounds, fuel within the 256
cap, and the event log extended by a balanced segment whose advance count
matches the cursor movement. -/
def Extends (s s' : PState) : Prop :=
  s'.nodes = s.nodes ∧ s'.docLength = s.docLength ∧
  s.pos ≤ s'.pos ∧ s'.pos ≤ s'.nodes.length ∧ s'.fuel ≤ 256 ∧
  ∃ δ, s'.events = s.events ++ δ ∧ Seg δ ∧ advCount δ = s'.pos - s.pos

/-- A changelog with one release and pending unreleased changes, used to
exercise `promoteUnreleased`. -/
def c4wChangelog : Changelog :=
  { unreleased := { link := some "https://example.com/unreleased", changes := [(.fixed, ["a fix"])] },
    releases := [("1.0.0", { version := "1.0.0", date := "2020-01-01" })] }

/-- Options promoting the changelog above to 2.0.0. -/
def c4wOptions : PromoteOptions := { version := "2.0.0" }

/-- A second changelog with one tagged, linked release, used to exercise
the frame conditions of `promoteUnreleased`. -/
def c10wChangelog : Changelog :=
  { unreleased := { link := some "https://example.com/unreleased", changes := [(.added, ["an addition"])] },
    releases := [("0.9.0", { version := "0.9.0", date := "2019-12-31", tag := some .yanked,
                             link := some "https://example.com/v0.9.0",
                             changes := [(.changed, ["older change"])] })] }

/-- Options promoting the second changelog to 1.0.0. -/
def c10wOptions : PromoteOptions := { version := "1.0.0" }

/-- The markdown nodes attached across a build stack, bottom of the stack
first (children are appended to the top tree, and a closed tree is appended
to its parent, so this concatenation is the processing order). -/
def stackMds : List Tree → List MdNode
  | [] => []
  | t :: rest => stackMds rest ++ Tree.mds t

/-! # Theorems -/

/-! ## Event-segment algebra -/

theorem advCount_append (δ1 δ2 : List Event) :
    advCount (δ1 ++ δ2) = advCount δ1 + advCount δ2 := by
  induction δ1 with
  | nil => simp [advCount]
  | cons e r ih => cases e <;> simp [advCount, ih] <;> omega

theorem evDepthRun_append (δ1 δ2 : List Event) (d : Nat) :
    evDepthRun (δ1 ++ δ2) d = (evDepthRun δ1 d).bind (fun e => evDepthRun δ2 e) := by
  induction δ1 generalizing d with
  | nil => simp [evDepthRun]
  | cons e r ih =>
    cases e with
    | openE k => simp [evDepthRun, ih]
    | close =>
      cases d with
      | zero => simp [evDepthRun]
      | succ d => simp [evDepthRun, ih]
    | advance => simp [evDepthRun, ih]
    | missing => simp [evDepthRun, ih]

theorem Seg.append {δ1 δ2 : List Event} (h1 : Seg δ1) (h2 : Seg δ2) : Seg (δ1 ++ δ2) := by
  simp only [Seg] at h1 h2 ⊢
  rw [evDepthRun_append, h1]
  simpa using h2

theorem Seg.nil : Seg [] := by simp [Seg, evDepthRun]

theorem evDepthRun_mono {δ : List Event} {d e : Nat} (h : evDepthRun δ d = some e) (k : Nat) :
    evDepthRun δ (d + k) = some (e + k) := by
  induction δ generalizing d e with
  | nil =>
    simp [evDepthRun] at h ⊢
    omega
  | cons ev r ih =>
    cases ev with
    | openE kk =>
      simp only [evDepthRun] at h ⊢
      have := ih (d := d + 1) (e := e) h
      simpa [Nat.add_right_comm] using this
    | close =>
      cases d with
      | zero => simp [evDepthRun] at h
      | succ d =>
        simp only [evDepthRun] at h
        have := ih (d := d) (e := e) h
        simpa [Nat.succ_add] using this
    | advance => simp only [evDepthRun] at h ⊢; exact ih h
    | missing => simp only [evDepthRun] at h ⊢; exact ih h

theorem Seg.wrap {δ : List Event} (h : Seg δ) (k : TreeKind) :
    Seg (.openE k :: (δ ++ [.close])) := by
  have h1 := evDepthRun_mono (d := 0) (e := 0) h 1
  simp only [Seg, evDepthRun, Nat.zero_add] at h1 ⊢
  rw [evDepthRun_append, h1]
  simp [evDepthRun]

theorem advCount_wrap (δ : List Event) (k : TreeKind) :
    advCount (.openE k :: (δ ++ [.close])) = advCount δ := by
  simp [advCount, advCount_append]

theorem set_append_cons (es : List Event) (a b : Event) (δ : List Event) :
    (es ++ a :: δ).set es.length b = es ++ b :: δ := by
  induction es with
  | nil => simp
  | cons e r ih => simpa [List.set] using ih

/-! ## State-extension algebra -/

theorem extends_self {s : PState} (hp : s.pos ≤ s.nodes.length) (hf : s.fuel ≤ 256) :
    Extends s s :=
  ⟨rfl, rfl, Nat.le_refl _, hp, hf, [], by simp, Seg.nil, by simp [advCount]⟩

theorem Extends.trans {a b c : PState} (h1 : Extends a b) (h2 : Extends b c) : Extends a c := by
  obtain ⟨hn1, hd1, hp1, hb1, hf1, δ1, he1, hs1, ha1⟩ := h1
  obtain ⟨hn2, hd2, hp2, hb2, hf2, δ2, he2, hs2, ha2⟩ := h2
  refine ⟨hn2.trans hn1, hd2.trans hd1, hp1.trans hp2, ?_, hf2, δ1 ++ δ2, ?_, hs1.append hs2, ?_⟩
  · omega
  · rw [he2, he1, List.append_assoc]
  · rw [advCount_append]
    omega

/-! ## Combinator effects -/

theorem nth_eq {s : PState} (la : Nat) (h : s.fuel ≠ 0) :
    nth la s = some (s.nodes[s.pos + la]?, { s with fuel := s.fuel - 1 }) := by
  simp [nth, h]

theorem atP_eq {s : PState} (f : MdNode → Bool) (h : s.fuel ≠ 0) :
    atP f s = some (atHolds f s, { s with fuel := s.fuel - 1 }) := by
  simp only [atP, nth_eq 0 h, Option.map_some, Nat.add_zero, atHolds]
  rfl

theorem advanceP_eq {s : PState} (h : s.pos < s.nodes.length) :
    advanceP s =
      some { s with fuel := 256, events := s.events ++ [.advance], pos := s.pos + 1 } := by
  simp [advanceP, h]

theorem captureMissing_eq (msg : String) (s : PState) :
    captureMissing msg s =
      { s with events := s.events ++ [.openE (.error msg), .missing, .close] } := by
  show closeM s.events.length (.error msg) _ = _
  simp only [closeM]
  rw [List.append_assoc]
  rw [show ([Event.openE (.error "Unclosed Event")] ++ [Event.missing])
        = Event.openE (.error "Unclosed Event") :: [Event.missing] from rfl]
  rw [set_append_cons]
  simp

theorem pos_lt_of_getElem? {s : PState} {node : MdNode} (hn : s.nodes[s.pos]? = some node) :
    s.pos < s.nodes.length := by
  by_contra hlt
  rw [List.getElem?_eq_none (by omega)] at hn
  exact Option.noConfusion hn

theorem awe_eq {s : PState} (errFn : MdNode → String) {node : MdNode}
    (hn : s.nodes[s.pos]? = some node) (h : s.fuel ≠ 0) :
    advanceWithError errFn s =
      some { s with fuel := 256, pos := s.pos + 1, events := s.events ++ [Event.openE (.error (errFn node)), Event.advance, Event.close] } := by
  have hp : s.pos < s.nodes.length := pos_lt_of_getElem? hn
  have hev : ((s.events ++ [Event.openE (.error "Unclosed Event")]) ++ [Event.advance]).set
        s.events.length (Event.openE (.error (errFn node)))
      = s.events ++ [Event.openE (.error (errFn node)), Event.advance] := by
    rw [List.append_assoc]
    exact set_append_cons s.events _ _ _
  simp only [advanceWithError, hp, if_true, nth_eq 0 h, Nat.add_zero, hn, Option.bind_some]
  show Option.map _ (advanceP _) = _
  rw [advanceP_eq (by simpa using hp)]
  rw [Option.map_some']
  simp only [openM, closeM]
  rw [hev]
  simp

/-- The segment `[Open (Error msg), Advance, Close]` is balanced with one
advance. -/
theorem seg_awe (msg : String) :
    Seg [Event.openE (.error msg), .advance, .close]
      ∧ advCount [Event.openE (.error msg), .advance, .close] = 1 := by
  constructor
  · simp [Seg, evDepthRun]
  · simp [advCount]

/-- The segment `[Open (Error msg), Missing, Close]` is balanced with no
advance. -/
theorem seg_missing (msg : String) :
    Seg [Event.openE (.error msg), .missing, .close]
      ∧ advCount [Event.openE (.error msg), .missing, .close] = 0 := by
  constructor
  · simp [Seg, evDepthRun]
  · simp [advCount]

/-- `capture_missing_node` extends the state by a balanced segment. -/
theorem captureMissing_extends {s : PState} (msg : String)
    (hp : s.pos ≤ s.nodes.length) (hc : s.fuel ≤ 256) :
    Extends s (captureMissing msg s) ∧ (captureMissing msg s).fuel = s.fuel := by
  rw [captureMissing_eq]
  exact ⟨⟨rfl, rfl, Nat.le_refl _, hp, hc, _, rfl, (seg_missing msg).1, by
    simp [(seg_missing msg).2]⟩, rfl⟩

/-- `advance_with_error` extends the state by a balanced segment and
refills the fuel. -/
theorem awe_extends {s : PState} (errFn : MdNode → String) {node : MdNode}
    (hn : s.nodes[s.pos]? = some node) (h : s.fuel ≠ 0) :
    ∃ s', advanceWithError errFn s = some s'
      ∧ Extends s s' ∧ s'.fuel = 256 ∧ s'.pos = s.pos + 1 := by
  have hp : s.pos < s.nodes.length := pos_lt_of_getElem? hn
  refine ⟨_, awe_eq errFn hn h, ?_, rfl, rfl⟩
  exact ⟨rfl, rfl, Nat.le_succ_of_le (Nat.le_refl _), by simpa using hp, Nat.le_refl 256,
    _, rfl, (seg_awe (errFn node)).1, by simp [(seg_awe (errFn node)).2]⟩

/-- Closing an `open` around an inner extension yields an extension by the
wrapped segment. -/
theorem close_openM_extends {s s2 : PState} (k : TreeKind)
    (hx : Extends (openM s).2 s2) :
    Extends s (closeM (openM s).1 k s2)
      ∧ (closeM (openM s).1 k s2).fuel = s2.fuel
      ∧ (closeM (openM s).1 k s2).pos = s2.pos := by
  obtain ⟨hn, hd, hppos, hb, hf, δe, he, hs, ha⟩ := hx
  refine ⟨⟨hn, hd, hppos, ?_, hf, .openE k :: (δe ++ [.close]), ?_, hs.wrap k, ?_⟩, rfl, rfl⟩
  · exact hb
  · show (s2.events.set s.events.length _) ++ [Event.close] = _
    rw [he]
    show ((s.events ++ [Event.openE (.error "Unclosed Event")]) ++ δe).set s.events.length _
        ++ [Event.close] = _
    rw [List.append_assoc]
    rw [show ([Event.openE (.error "Unclosed Event")] ++ δe)
          = Event.openE (.error "Unclosed Event") :: δe from rfl]
    rw [set_append_cons]
    simp
  · rw [advCount_wrap]
    simpa [closeM, openM] using ha

/-- `Parser::expect` always succeeds, extends the state by a balanced
segment, and costs at most 3 fuel (or refills it by advancing). -/
theorem expectP_total {s : PState} (f : MdNode → Bool) (errFn : MdNode → String)
    (hf : 3 ≤ s.fuel) (hc : s.fuel ≤ 256) (hp : s.pos ≤ s.nodes.length) :
    ∃ s', expectP f errFn s = some s' ∧ Extends s s' ∧ s.fuel - 3 ≤ s'.fuel := by
  have h1 : s.fuel ≠ 0 := by omega
  have h2 : s.fuel - 1 ≠ 0 := by omega
  by_cases hat : atHolds f s
  · have hlt : s.pos < s.nodes.length := by
      unfold atHolds at hat
      cases hg : s.nodes[s.pos]? with
      | none => rw [hg] at hat; exact absurd hat (by simp)
      | some n => exact pos_lt_of_getElem? hg
    unfold expectP eat
    rw [atP_eq f h1]
    rw [Option.some_bind]
    simp only [hat, if_true]
    rw [advanceP_eq (s := { s with fuel := s.fuel - 1 }) (by simpa using hlt)]
    rw [Option.map_some']
    rw [Option.some_bind]
    refine ⟨{ s with fuel := 256, events := s.events ++ [Event.advance], pos := s.pos + 1 },
      rfl, ⟨rfl, rfl, Nat.le_succ _, by simpa using hlt, Nat.le_refl _, [.advance], rfl,
      by simp [Seg, evDepthRun], by show advCount [Event.advance] = s.pos + 1 - s.pos; simp [advCount]⟩,
      by show s.fuel - 3 ≤ 256; omega⟩
  · rw [Bool.not_eq_true] at hat
    unfold expectP eat
    rw [atP_eq f h1]
    rw [Option.some_bind]
    rw [if_neg (show ¬((atHolds f s, ({ s with fuel := s.fuel - 1 } : PState)).1 = true) by
      simp [hat])]
    rw [Option.some_bind]
    rw [nth_eq (s := { s with fuel := s.fuel - 1 }) 0 (by simpa using h2)]
    rw [Option.some_bind]
    rw [show ({ s with fuel := s.fuel - 1 } : PState).nodes[({ s with fuel := s.fuel - 1 } : PState).pos + 0]?
          = s.nodes[s.pos]? by simp]
    cases hg : s.nodes[s.pos]? with
    | some n =>
      have h3 : s.fuel - 1 - 1 ≠ 0 := by omega
      obtain ⟨s', he, hx, hf', hpos'⟩ :=
        @awe_extends { s with fuel := s.fuel - 1 - 1 } errFn n
          (by simpa using hg) (by simpa using h3)
      refine ⟨s', ?_, ?_, ?_⟩
      · exact he
      · have hfirst : Extends s { s with fuel := s.fuel - 1 - 1 } :=
          ⟨rfl, rfl, Nat.le_refl _, hp, by show s.fuel - 1 - 1 ≤ 256; omega, [], by simp, Seg.nil,
            by show advCount [] = s.pos - s.pos; simp [advCount]⟩
        exact hfirst.trans hx
      · omega
    | none =>
      exact ⟨{ s with fuel := s.fuel - 1 - 1 }, rfl,
        ⟨rfl, rfl, Nat.le_refl _, hp, by show s.fuel - 1 - 1 ≤ 256; omega, [], by simp, Seg.nil,
          by show advCount [] = s.pos - s.pos; simp [advCount]⟩,
        by show s.fuel - 3 ≤ s.fuel - 1 - 1; omega⟩

/-- Composing an inner extension with the enclosing `open`/`close`
bracket. -/
theorem map_closeM_total {sA s2 : PState} (k : TreeKind) {e : Option PState}
    (he : e = some s2) (hx : Extends (openM sA).2 s2) :
    ∃ s', e.map (closeM (openM sA).1 k) = some s'
      ∧ Extends sA s' ∧ s'.fuel = s2.fuel ∧ s'.pos = s2.pos := by
  subst he
  exact ⟨_, rfl, (close_openM_extends k hx).1, (close_openM_extends k hx).2.1,
    (close_openM_extends k hx).2.2⟩

/-- A state differing only in fuel (not larger) extends the original. -/
theorem extends_fuel {s : PState} (f' : Nat) (hp : s.pos ≤ s.nodes.length) (hc : f' ≤ 256) :
    Extends s { s with fuel := f' } :=
  ⟨rfl, rfl, Nat.le_refl _, hp, hc, [], by simp, Seg.nil,
    by show advCount [] = s.pos - s.pos; simp [advCount]⟩

/-- `fn title` always succeeds and extends the state. -/
theorem titleP_total {s : PState} (hf : 6 ≤ s.fuel) (hc : s.fuel ≤ 256)
    (hp : s.pos ≤ s.nodes.length) :
    ∃ s', titleP s = some s' ∧ Extends s s' ∧ s.fuel - 6 ≤ s'.fuel := by
  have h1 : s.fuel ≠ 0 := by omega
  unfold titleP
  rw [atP_eq _ h1]
  rw [Option.some_bind]
  by_cases hat : atHolds (isHeading 1) s
  · simp only [hat, if_true]
    obtain ⟨s2, he2, hx2, hf2⟩ :=
      expectP_total (s := (openM ({ s with fuel := s.fuel - 1 } : PState)).2)
        (fun n => n.txt == CHANGELOG_TITLE)
        (fun n => "Expected '# " ++ CHANGELOG_TITLE ++ "' but found '# " ++ n.txt ++ "'")
        (by show 3 ≤ s.fuel - 1; omega) (by show s.fuel - 1 ≤ 256; omega)
        (by show s.pos ≤ s.nodes.length; exact hp)
    obtain ⟨s', hmap, hx', hfuel, _⟩ := map_closeM_total .title he2 hx2
    refine ⟨s', hmap, ?_, ?_⟩
    · exact (extends_fuel (s.fuel - 1) hp (by omega)).trans hx'
    · have h4 : s.fuel - 1 - 3 ≤ s2.fuel := hf2
      omega
  · rw [Bool.not_eq_true] at hat
    simp only [hat, Bool.false_eq_true, if_false]
    refine ⟨_, rfl, ?_, ?_⟩
    · exact (extends_fuel (s.fuel - 1) hp (by omega)).trans
        ((captureMissing_extends missingTitleMsg (by show s.pos ≤ s.nodes.length; exact hp)
          (by show s.fuel - 1 ≤ 256; omega)).1)
    · have := (captureMissing_extends (s := { s with fuel := s.fuel - 1 }) missingTitleMsg
        (by show s.pos ≤ s.nodes.length; exact hp) (by show s.fuel - 1 ≤ 256; omega)).2
      simp only [this]
      show s.fuel - 6 ≤ s.fuel - 1
      omega

/-- `fn notable_changes_text` always succeeds and extends the state. -/
theorem notableChangesTextP_total {s : PState} (hf : 6 ≤ s.fuel) (hc : s.fuel ≤ 256)
    (hp : s.pos ≤ s.nodes.length) :
    ∃ s', notableChangesTextP s = some s' ∧ Extends s s' ∧ s.fuel - 6 ≤ s'.fuel := by
  have h1 : s.fuel ≠ 0 := by omega
  have h2 : s.fuel - 1 ≠ 0 := by omega
  unfold notableChangesTextP
  rw [atP_eq _ h1]
  rw [Option.some_bind]
  by_cases hat : atHolds isParagraph s
  · simp only [hat, if_true]
    rw [atP_eq (s := { s with fuel := s.fuel - 1 }) _ (by simpa using h2)]
    rw [Option.some_bind]
    have hsame : atHolds (fun n => matchesMarkdown n ABOUT_FORMAT_TEXT)
        ({ s with fuel := s.fuel - 1 } : PState)
        = atHolds (fun n => matchesMarkdown n ABOUT_FORMAT_TEXT) s := by
      simp [atHolds]
    by_cases hat2 : atHolds (fun n => matchesMarkdown n ABOUT_FORMAT_TEXT) s
    · rw [hsame, hat2]
      simp only [Bool.not_true, Bool.false_eq_true, if_false]
      refine ⟨_, rfl, ?_, ?_⟩
      · exact (extends_fuel (s.fuel - 1 - 1) hp (by omega)).trans
          ((captureMissing_extends missingNotableMsg (by show s.pos ≤ s.nodes.length; exact hp)
            (by show s.fuel - 1 - 1 ≤ 256; omega)).1)
      · have := (captureMissing_extends (s := { s with fuel := s.fuel - 1 - 1 })
          missingNotableMsg (by show s.pos ≤ s.nodes.length; exact hp)
          (by show s.fuel - 1 - 1 ≤ 256; omega)).2
        simp only [this]
        show s.fuel - 6 ≤ s.fuel - 1 - 1
        omega
    · rw [hsame]
      rw [Bool.not_eq_true] at hat2
      rw [hat2]
      simp only [Bool.not_false, if_true]
      obtain ⟨s2, he2, hx2, hf2⟩ :=
        expectP_total (s := (openM ({ s with fuel := s.fuel - 1 - 1 } : PState)).2)
          (fun n => n.txt == NOTABLE_CHANGES_TEXT)
          (fun n => "Expected the following markdown:\n\n" ++ NOTABLE_CHANGES_TEXT ++
            "\n\nbut was:\n\n" ++ toMarkdown n)
          (by show 3 ≤ s.fuel - 1 - 1; omega) (by show s.fuel - 1 - 1 ≤ 256; omega)
          (by show s.pos ≤ s.nodes.length; exact hp)
      obtain ⟨s', hmap, hx', hfuel, _⟩ := map_closeM_total .notableChanges he2 hx2
      refine ⟨s', hmap, ?_, ?_⟩
      · exact (extends_fuel (s.fuel - 1 - 1) hp (by omega)).trans hx'
      · have h4 : s.fuel - 1 - 1 - 3 ≤ s2.fuel := hf2
        omega
  · rw [Bool.not_eq_true] at hat
    simp only [hat, Bool.false_eq_true, if_false]
    refine ⟨_, rfl, ?_, ?_⟩
    · exact (extends_fuel (s.fuel - 1) hp (by omega)).trans
        ((captureMissing_extends missingNotableMsg (by show s.pos ≤ s.nodes.length; exact hp)
          (by show s.fuel - 1 ≤ 256; omega)).1)
    · have := (captureMissing_extends (s := { s with fuel := s.fuel - 1 }) missingNotableMsg
        (by show s.pos ≤ s.nodes.length; exact hp) (by show s.fuel - 1 ≤ 256; omega)).2
      simp only [this]
      show s.fuel - 6 ≤ s.fuel - 1
      omega

/-- `fn about_format_text` always succeeds and extends the state. -/
theorem aboutFormatTextP_total {s : PState} (hf : 6 ≤ s.fuel) (hc : s.fuel ≤ 256)
    (hp : s.pos ≤ s.nodes.length) :
    ∃ s', aboutFormatTextP s = some s' ∧ Extends s s' ∧ s.fuel - 6 ≤ s'.fuel := by
  have h1 : s.fuel ≠ 0 := by omega
  unfold aboutFormatTextP
  rw [atP_eq _ h1]
  rw [Option.some_bind]
  by_cases hat : atHolds isParagraph s
  · simp only [hat, if_true]
    obtain ⟨s2, he2, hx2, hf2⟩ :=
      expectP_total (s := (openM ({ s with fuel := s.fuel - 1 } : PState)).2)
        (fun n => matchesMarkdown n ABOUT_FORMAT_TEXT)
        (fun n => "Expected the following markdown:\n\n" ++ ABOUT_FORMAT_TEXT ++
          "\n\nbut was:\n\n" ++ toMarkdown n)
        (by show 3 ≤ s.fuel - 1; omega) (by show s.fuel - 1 ≤ 256; omega)
        (by show s.pos ≤ s.nodes.length; exact hp)
    obtain ⟨s', hmap, hx', hfuel, _⟩ := map_closeM_total .aboutFormat he2 hx2
    refine ⟨s', hmap, ?_, ?_⟩
    · exact (extends_fuel (s.fuel - 1) hp (by omega)).trans hx'
    · have h4 : s.fuel - 1 - 3 ≤ s2.fuel := hf2
      omega
  · rw [Bool.not_eq_true] at hat
    simp only [hat, Bool.false_eq_true, if_false]
    refine ⟨_, rfl, ?_, ?_⟩
    · exact (extends_fuel (s.fuel - 1) hp (by omega)).trans
        ((captureMissing_extends missingAboutMsg (by show s.pos ≤ s.nodes.length; exact hp)
          (by show s.fuel - 1 ≤ 256; omega)).1)
    · have := (captureMissing_extends (s := { s with fuel := s.fuel - 1 }) missingAboutMsg
        (by show s.pos ≤ s.nodes.length; exact hp) (by show s.fuel - 1 ≤ 256; omega)).2
      simp only [this]
      show s.fuel - 6 ≤ s.fuel - 1
      omega

/-! ## Capture groups of the release-header regex -/

theorem runP_seq_decomp {a b : RE} {s : List Char} {r : List Char × Caps}
    (h : r ∈ runP (.seq a b) s) :
    ∃ ra ∈ runP a s, ∃ rb ∈ runP b ra.1, r = (rb.1, ra.2 ++ rb.2) := by
  simp only [runP, List.mem_flatMap, List.mem_map] at h
  obtain ⟨ra, hra, rb, hrb, hr⟩ := h
  exact ⟨ra, hra, rb, hrb, hr.symm⟩

theorem runP_group_mem {i : Nat} {a : RE} {s : List Char} {r : List Char × Caps}
    (h : r ∈ runP (.group i a) s) :
    ∃ v, (i, v) ∈ r.2 := by
  simp only [runP, List.mem_map] at h
  obtain ⟨ra, hra, hr⟩ := h
  exact ⟨s.take (s.length - ra.1.length), by rw [← hr]; simp⟩

/-- Any full match of `RELEASE_HEADER_REGEX` carries captures for the
`version` (1) and `release_date` (2) groups. -/
theorem releaseHeader_caps_keys {txt : String} {caps : Caps}
    (h : reMatches releaseHeaderRE txt = some caps) :
    (∃ v, (1, v) ∈ caps) ∧ (∃ v, (2, v) ∈ caps) := by
  unfold reMatches at h
  rw [Option.map_eq_some'] at h
  obtain ⟨r, hfind, hr2⟩ := h
  have hmem : r ∈ runP releaseHeaderRE txt.toList := List.mem_of_find?_eq_some hfind
  subst hr2
  rw [show releaseHeaderRE = .seq (.opt (.lit '['))
      (.seq (.group 1 (.plus (.cls true (']' :: '-' :: wsChars) [])))
      (.seq (.opt (.lit ']'))
      (.seq (.plus wsRE)
      (.seq (.lit '-')
      (.seq (.plus wsRE)
      (.seq (.group 2 (.plus (.cls true wsChars [])))
      (.seq (.opt (reSeq [.plus wsRE, .lit '[', .group 3 (.plus .anyc), .lit ']']))
        .eps))))))) from rfl] at hmem
  obtain ⟨r1, _, rr1, hrr1, hre⟩ := runP_seq_decomp hmem
  obtain ⟨r2, hr2m, rr2, hrr2, hre2⟩ := runP_seq_decomp hrr1
  obtain ⟨v1, hv1⟩ := runP_group_mem hr2m
  obtain ⟨r3, _, rr3, hrr3, hre3⟩ := runP_seq_decomp hrr2
  obtain ⟨r4, _, rr4, hrr4, hre4⟩ := runP_seq_decomp hrr3
  obtain ⟨r5, _, rr5, hrr5, hre5⟩ := runP_seq_decomp hrr4
  obtain ⟨r6, _, rr6, hrr6, hre6⟩ := runP_seq_decomp hrr5
  obtain ⟨r7, hr7m, rr7, _, hre7⟩ := runP_seq_decomp hrr6
  obtain ⟨v2, hv2⟩ := runP_group_mem hr7m
  constructor
  · refine ⟨v1, ?_⟩
    rw [hre]
    simp only [List.mem_append]
    right
    rw [hre2]
    simp only [List.mem_append]
    left
    exact hv1
  · refine ⟨v2, ?_⟩
    rw [hre]
    simp only [List.mem_append]
    right
    rw [hre2]
    simp only [List.mem_append]
    right
    rw [hre3]
    simp only [List.mem_append]
    right
    rw [hre4]
    simp only [List.mem_append]
    right
    rw [hre5]
    simp only [List.mem_append]
    right
    rw [hre6]
    simp only [List.mem_append]
    right
    rw [hre7]
    simp only [List.mem_append]
    left
    exact hv2

/-- A recorded capture makes `capStr` defined. -/
theorem capStr_isSome_of_mem {caps : Caps} {i : Nat} {v : List Char}
    (hv : (i, v) ∈ caps) : ∃ str, capStr caps i = some str := by
  unfold capStr
  have hmemf : (i, v) ∈ caps.filter (fun e => e.1 = i) := by
    rw [List.mem_filter]
    exact ⟨hv, by simp⟩
  have hne : caps.filter (fun e => e.1 = i) ≠ [] := List.ne_nil_of_mem hmemf
  obtain ⟨last, hlast⟩ := Option.isSome_iff_exists.mp (by
    rw [List.getLast?_isSome]
    exact hne)
  exact ⟨String.mk last.2, by rw [hlast]; rfl⟩

/-- `open`, `advance`, `close` in sequence: one node consumed, fuel
refilled. -/
theorem open_advance_close_total {sA : PState} (k : TreeKind)
    (hlt : sA.pos < sA.nodes.length) :
    ∃ s', (advanceP (openM sA).2).map (closeM (openM sA).1 k) = some s'
      ∧ Extends sA s' ∧ s'.fuel = 256 ∧ s'.pos = sA.pos + 1 := by
  have hx : Extends (openM sA).2 { (openM sA).2 with fuel := 256, events := (openM sA).2.events ++ [Event.advance], pos := (openM sA).2.pos + 1 } :=
    ⟨rfl, rfl, Nat.le_succ _, by show sA.pos + 1 ≤ sA.nodes.length; omega, Nat.le_refl _,
     [Event.advance], rfl, by simp [Seg, evDepthRun],
     by show advCount [Event.advance] = sA.pos + 1 - sA.pos; simp [advCount]⟩
  obtain ⟨s', hmap, hx', hfuel, hpos⟩ :=
    map_closeM_total k (advanceP_eq (s := (openM sA).2) hlt) hx
  exact ⟨s', hmap, hx', hfuel, hpos⟩

/-- `fn change_group_header` always succeeds when a node is present,
consumes exactly it, and refills fuel. -/
theorem changeGroupHeaderP_total {s : PState} {node : MdNode}
    (hnode : s.nodes[s.pos]? = some node) (hf : 2 ≤ s.fuel) (hc : s.fuel ≤ 256) :
    ∃ s', changeGroupHeaderP s = some s'
      ∧ Extends s s' ∧ s'.fuel = 256 ∧ s'.pos = s.pos + 1 := by
  have h1 : s.fuel ≠ 0 := by omega
  have hlt : s.pos < s.nodes.length := pos_lt_of_getElem? hnode
  have hp : s.pos ≤ s.nodes.length := by omega
  unfold changeGroupHeaderP
  rw [nth_eq 0 h1]
  rw [Option.some_bind]
  rw [show s.pos + 0 = s.pos from rfl]
  rw [hnode]
  dsimp only
  cases hg : ChangeGroup.fromStr node.txt with
  | some g =>
    obtain ⟨s', hmap, hx, hfuel, hpos⟩ :=
      @open_advance_close_total { s with fuel := s.fuel - 1 }
        (.changeGroupHeader g) (by show s.pos < s.nodes.length; exact hlt)
    refine ⟨s', hmap, ?_, hfuel, hpos⟩
    exact (extends_fuel (s.fuel - 1) hp (by omega)).trans hx
  | none =>
    obtain ⟨s', he, hx, hfuel, hpos⟩ :=
      @awe_extends { s with fuel := s.fuel - 1 } _ node
        (by show s.nodes[s.pos]? = some node; exact hnode)
        (by show s.fuel - 1 ≠ 0; omega)
    refine ⟨s', he, ?_, hfuel, hpos⟩
    exact (extends_fuel (s.fuel - 1) hp (by omega)).trans hx

/-- `fn release_header` always succeeds when a node is present, consumes
exactly it, and refills fuel. -/
theorem releaseHeaderP_total {s : PState} {node : MdNode}
    (hnode : s.nodes[s.pos]? = some node) (hf : 2 ≤ s.fuel) (hc : s.fuel ≤ 256) :
    ∃ s', releaseHeaderP s = some s'
      ∧ Extends s s' ∧ s'.fuel = 256 ∧ s'.pos = s.pos + 1 := by
  have h1 : s.fuel ≠ 0 := by omega
  have hlt : s.pos < s.nodes.length := pos_lt_of_getElem? hnode
  have hp : s.pos ≤ s.nodes.length := by omega
  have hawe : ∀ errFn : MdNode → String,
      ∃ s', advanceWithError errFn ({ s with fuel := s.fuel - 1 } : PState) = some s'
        ∧ Extends s s' ∧ s'.fuel = 256 ∧ s'.pos = s.pos + 1 := by
    intro errFn
    obtain ⟨s', he, hx, hfuel, hpos⟩ :=
      @awe_extends { s with fuel := s.fuel - 1 } errFn node
        (by show s.nodes[s.pos]? = some node; exact hnode)
        (by show s.fuel - 1 ≠ 0; omega)
    exact ⟨s', he, (extends_fuel (s.fuel - 1) hp (by omega)).trans hx, hfuel, hpos⟩
  have hoac : ∀ k : TreeKind,
      ∃ s', (advanceP (openM ({ s with fuel := s.fuel - 1 } : PState)).2).map
              (closeM (openM ({ s with fuel := s.fuel - 1 } : PState)).1 k) = some s'
        ∧ Extends s s' ∧ s'.fuel = 256 ∧ s'.pos = s.pos + 1 := by
    intro k
    obtain ⟨s', hmap, hx, hfuel, hpos⟩ :=
      @open_advance_close_total { s with fuel := s.fuel - 1 } k
        (by show s.pos < s.nodes.length; exact hlt)
    exact ⟨s', hmap, (extends_fuel (s.fuel - 1) hp (by omega)).trans hx, hfuel, hpos⟩
  unfold releaseHeaderP
  rw [nth_eq 0 h1]
  rw [Option.some_bind]
  rw [show s.pos + 0 = s.pos from rfl]
  rw [hnode]
  dsimp only
  cases hm : reMatches releaseHeaderRE node.txt with
  | none =>
    exact hawe _
  | some caps =>
    dsimp only
    obtain ⟨⟨v1, hv1⟩, v2, hv2⟩ := releaseHeader_caps_keys hm
    obtain ⟨vs, hvs⟩ := capStr_isSome_of_mem hv1
    obtain ⟨ds, hds⟩ := capStr_isSome_of_mem hv2
    rw [hvs]
    dsimp only
    cases hrv : ReleaseVersion.fromStr vs with
    | error e =>
      exact hawe _
    | ok version =>
      dsimp only
      rw [hds]
      dsimp only
      cases hrd : ReleaseDate.fromStr ds with
      | error e =>
        exact hawe _
      | ok date =>
        dsimp only
        cases ht : capStr caps 3 with
        | some tagStr =>
          dsimp only
          cases htag : ReleaseTag.fromStr tagStr with
          | none =>
            exact hawe _
          | some tag =>
            exact hoac _
        | none =>
          exact hoac _

/-- `fn release_link` always succeeds when a node is present, consumes
exactly it, and refills fuel. -/
theorem releaseLinkP_total {s : PState} {node : MdNode}
    (hnode : s.nodes[s.pos]? = some node) (hf : 2 ≤ s.fuel) (hc : s.fuel ≤ 256) :
    ∃ s', releaseLinkP s = some s'
      ∧ Extends s s' ∧ s'.fuel = 256 ∧ s'.pos = s.pos + 1 := by
  have h1 : s.fuel ≠ 0 := by omega
  have hlt : s.pos < s.nodes.length := pos_lt_of_getElem? hnode
  have hp : s.pos ≤ s.nodes.length := by omega
  have hawe : ∀ errFn : MdNode → String,
      ∃ s', advanceWithError errFn ({ s with fuel := s.fuel - 1 } : PState) = some s'
        ∧ Extends s s' ∧ s'.fuel = 256 ∧ s'.pos = s.pos + 1 := by
    intro errFn
    obtain ⟨s', he, hx, hfuel, hpos⟩ :=
      @awe_extends { s with fuel := s.fuel - 1 } errFn node
        (by show s.nodes[s.pos]? = some node; exact hnode)
        (by show s.fuel - 1 ≠ 0; omega)
    exact ⟨s', he, (extends_fuel (s.fuel - 1) hp (by omega)).trans hx, hfuel, hpos⟩
  have hoac : ∀ k : TreeKind,
      ∃ s', (advanceP (openM ({ s with fuel := s.fuel - 1 } : PState)).2).map
              (closeM (openM ({ s with fuel := s.fuel - 1 } : PState)).1 k) = some s'
        ∧ Extends s s' ∧ s'.fuel = 256 ∧ s'.pos = s.pos + 1 := by
    intro k
    obtain ⟨s', hmap, hx, hfuel, hpos⟩ :=
      @open_advance_close_total { s with fuel := s.fuel - 1 } k
        (by show s.pos < s.nodes.length; exact hlt)
    exact ⟨s', hmap, (extends_fuel (s.fuel - 1) hp (by omega)).trans hx, hfuel, hpos⟩
  unfold releaseLinkP
  rw [nth_eq 0 h1]
  rw [Option.some_bind]
  rw [show s.pos + 0 = s.pos from rfl]
  rw [hnode]
  dsimp only
  cases hk : node.kind with
  | definition identifier url =>
    dsimp only
    cases hrl : ReleaseLink.fromStr url with
    | error e =>
      exact hawe _
    | ok link =>
      dsimp only
      by_cases hid : lowerStr identifier == lowerStr UNRELEASED_HEADER_TEXT
      · rw [if_pos hid]
        exact hoac _
      · rw [if_neg hid]
        cases hrv : ReleaseVersion.fromStr identifier with
        | ok v =>
          exact hoac _
        | error e =>
          exact hawe _
  | heading d =>
    exact hawe _
  | paragraph =>
    exact hawe _
  | list items =>
    exact hawe _
  | other =>
    exact hawe _

/-- A true `at` test exposes the node under the cursor. -/
theorem atHolds_some {f : MdNode → Bool} {s : PState} (h : atHolds f s = true) :
    ∃ node, s.nodes[s.pos]? = some node ∧ f node = true := by
  unfold atHolds at h
  rcases hn : s.nodes[s.pos]? with _ | n
  · simp only [hn] at h
    exact (Bool.false_ne_true h).elim
  · simp only [hn] at h
    exact ⟨n, rfl, h⟩

/-- A single `advance` step extends the state. -/
theorem advance_extends {s : PState} (hlt : s.pos < s.nodes.length) :
    Extends s { s with fuel := 256, events := s.events ++ [Event.advance], pos := s.pos + 1 } :=
  ⟨rfl, rfl, Nat.le_succ _, by show s.pos + 1 ≤ s.nodes.length; omega, Nat.le_refl _,
   [Event.advance], rfl, by simp [Seg, evDepthRun],
   by show advCount [Event.advance] = s.pos + 1 - s.pos; simp [advCount]⟩

/-- `fn change_group` always succeeds when the cursor is at a depth-3
heading, strictly advances, and leaves at least 255 fuel. -/
theorem changeGroupP_total {s : PState} (hat : atHolds (isHeading 3) s = true)
    (hf : 3 ≤ s.fuel) (hc : s.fuel ≤ 256) :
    ∃ s', changeGroupP s = some s'
      ∧ Extends s s' ∧ 255 ≤ s'.fuel ∧ s.pos < s'.pos := by
  have h1 : s.fuel ≠ 0 := by omega
  obtain ⟨node, hnode, -⟩ := atHolds_some hat
  have hlt : s.pos < s.nodes.length := pos_lt_of_getElem? hnode
  have hp : s.pos ≤ s.nodes.length := Nat.le_of_lt hlt
  unfold changeGroupP
  rw [atP_eq _ h1, Option.some_bind]
  simp only [hat, if_true]
  dsimp only [openM]
  obtain ⟨s2, hcgh, hx2, hfuel2, hpos2⟩ :=
    @changeGroupHeaderP_total
      { s with fuel := s.fuel - 1, events := s.events ++ [Event.openE (.error "Unclosed Event")] }
      node (by show s.nodes[s.pos]? = some node; exact hnode)
      (by show 2 ≤ s.fuel - 1; omega) (by show s.fuel - 1 ≤ 256; omega)
  rw [hcgh, Option.some_bind]
  have hx2A : Extends (openM ({ s with fuel := s.fuel - 1 } : PState)).2 s2 := hx2
  have hxA : Extends s ({ s with fuel := s.fuel - 1 } : PState) :=
    extends_fuel (s.fuel - 1) hp (by omega)
  have hq2 : s2.pos = s.pos + 1 := hpos2
  obtain ⟨hn2, hd2, hple2, hb2, hfle2, δ2, he2, hs2, ha2⟩ := hx2
  have hb2s : s2.pos ≤ s2.nodes.length := hb2
  have h2 : s2.fuel ≠ 0 := by rw [hfuel2]; omega
  rw [atP_eq _ h2, Option.some_bind]
  by_cases hat2 : atHolds isList s2
  · simp only [hat2, if_true]
    obtain ⟨node2, hnode2, -⟩ := atHolds_some hat2
    have hlt2 : s2.pos < s2.nodes.length := pos_lt_of_getElem? hnode2
    rw [advanceP_eq
      (s := { s2 with fuel := s2.fuel - 1, events := s2.events ++ [Event.openE (.error "Unclosed Event")] })
      (by show s2.pos < s2.nodes.length; exact hlt2)]
    rw [Option.map_some']
    refine ⟨_, rfl, ?_, ?_, ?_⟩
    · have hxadv : Extends (openM ({ s2 with fuel := s2.fuel - 1 } : PState)).2
          { (openM ({ s2 with fuel := s2.fuel - 1 } : PState)).2 with fuel := 256, events := (openM ({ s2 with fuel := s2.fuel - 1 } : PState)).2.events ++ [Event.advance], pos := (openM ({ s2 with fuel := s2.fuel - 1 } : PState)).2.pos + 1 } :=
        advance_extends (by show s2.pos < s2.nodes.length; exact hlt2)
      have hclose1 := close_openM_extends .changeGroupList hxadv
      have hxB : Extends s2 ({ s2 with fuel := s2.fuel - 1 } : PState) :=
        extends_fuel (s2.fuel - 1) hb2s (by omega)
      have hchain : Extends (openM ({ s with fuel := s.fuel - 1 } : PState)).2 _ :=
        hx2A.trans (hxB.trans hclose1.1)
      have hclose2 := close_openM_extends .changeGroup hchain
      exact hxA.trans hclose2.1
    · show (255 : Nat) ≤ 256
      omega
    · show s.pos < s2.pos + 1
      omega
  · rw [Bool.not_eq_true] at hat2
    simp only [hat2, Bool.false_eq_true, if_false]
    refine ⟨_, rfl, ?_, ?_, ?_⟩
    · have hxB : Extends s2 ({ s2 with fuel := s2.fuel - 1 } : PState) :=
        extends_fuel (s2.fuel - 1) hb2s (by omega)
      have hcm := captureMissing_extends (s := { s2 with fuel := s2.fuel - 1 })
        missingListMsg (by show s2.pos ≤ s2.nodes.length; exact hb2s)
        (by show s2.fuel - 1 ≤ 256; omega)
      have hchain : Extends (openM ({ s with fuel := s.fuel - 1 } : PState)).2 _ :=
        hx2A.trans (hxB.trans hcm.1)
      have hclose2 := close_openM_extends .changeGroup hchain
      exact hxA.trans hclose2.1
    · show (255 : Nat) ≤ s2.fuel - 1
      omega
    · show s.pos < s2.pos
      omega

theorem Extends.nodes_eq {a b : PState} (h : Extends a b) : b.nodes = a.nodes := h.1

theorem Extends.pos_mono {a b : PState} (h : Extends a b) : a.pos ≤ b.pos := h.2.2.1

theorem Extends.pos_le_len {a b : PState} (h : Extends a b) : b.pos ≤ b.nodes.length :=
  h.2.2.2.1

theorem Extends.fuel_le {a b : PState} (h : Extends a b) : b.fuel ≤ 256 := h.2.2.2.2.1

/-- The change-group loop shared by `unreleased` and `release` always
succeeds when given at least `nodes.length - pos` iterations. -/
theorem sectionLoop_total (errFn : MdNode → String) :
    ∀ (n : Nat) (s : PState), s.nodes.length ≤ s.pos + n → 4 ≤ s.fuel → s.fuel ≤ 256 →
      s.pos ≤ s.nodes.length →
    ∃ s', sectionLoop errFn n s = some s' ∧ Extends s s'
      ∧ (s.fuel - 3 ≤ s'.fuel ∨ 252 ≤ s'.fuel) := by
  intro n
  induction n with
  | zero =>
    intro s hn hf hc hp
    have he : eofP s = true := by simp only [eofP]; simp; omega
    simp only [sectionLoop]
    rw [if_pos he]
    exact ⟨s, rfl, extends_self hp hc, Or.inl (by omega)⟩
  | succ n ih =>
    intro s hn hf hc hp
    have h1 : s.fuel ≠ 0 := by omega
    simp only [sectionLoop]
    by_cases heof : s.pos = s.nodes.length
    · have he : eofP s = true := by simp only [eofP]; simp; omega
      rw [if_pos he]
      exact ⟨s, rfl, extends_self hp hc, Or.inl (by omega)⟩
    · have hlt : s.pos < s.nodes.length := by omega
      have he : eofP s = false := by simp only [eofP]; simp; omega
      rw [if_neg (by simp [he])]
      rw [atP_eq _ h1, Option.some_bind]
      have hnode : s.nodes[s.pos]? = some s.nodes[s.pos] := List.getElem?_eq_getElem hlt
      by_cases hat : atHolds (isHeading 3) s
      · simp only [hat, if_true]
        obtain ⟨sg, hg, hxg, hfg, hposg⟩ :=
          changeGroupP_total (s := { s with fuel := s.fuel - 1 })
            (show atHolds (isHeading 3) ({ s with fuel := s.fuel - 1 } : PState) = true from hat)
            (by show 3 ≤ s.fuel - 1; omega) (by show s.fuel - 1 ≤ 256; omega)
        rw [hg, Option.some_bind]
        have hgn : sg.nodes = s.nodes := hxg.nodes_eq
        have hgp : s.pos < sg.pos := hposg
        obtain ⟨s', hrec, hxr, hfr⟩ := ih sg
          (by rw [hgn]; omega) (by omega) hxg.fuel_le hxg.pos_le_len
        refine ⟨s', hrec, ?_, ?_⟩
        · exact (extends_fuel (s.fuel - 1) hp (by omega)).trans (hxg.trans hxr)
        · right
          rcases hfr with h | h <;> omega
      · rw [Bool.not_eq_true] at hat
        simp only [hat, Bool.false_eq_true, if_false]
        have hsameF : ∀ (f : MdNode → Bool) (k : Nat),
            atHolds f ({ s with fuel := k } : PState) = atHolds f s := by
          intro f k; simp [atHolds]
        simp only [atAny]
        rw [atP_eq (s := { s with fuel := s.fuel - 1 }) _ (by show s.fuel - 1 ≠ 0; omega),
          Option.some_bind]
        simp only [hsameF]
        by_cases hat2 : atHolds (isHeading 2) s
        · simp only [hat2, if_true]
          refine ⟨_, rfl, ?_, Or.inl ?_⟩
          · exact extends_fuel (s.fuel - 1 - 1) hp (by omega)
          · show s.fuel - 3 ≤ s.fuel - 1 - 1
            omega
        · rw [Bool.not_eq_true] at hat2
          simp only [hat2, Bool.false_eq_true, if_false]
          rw [atP_eq (s := { s with fuel := s.fuel - 1 - 1 })
            _ (by show s.fuel - 1 - 1 ≠ 0; omega), Option.some_bind]
          simp only [hsameF]
          by_cases hat3 : atHolds isDefinition s
          · simp only [hat3, if_true]
            refine ⟨_, rfl, ?_, Or.inl ?_⟩
            · exact extends_fuel (s.fuel - 1 - 1 - 1) hp (by omega)
            · show s.fuel - 3 ≤ s.fuel - 1 - 1 - 1
              omega
          · rw [Bool.not_eq_true] at hat3
            simp only [hat3, Bool.false_eq_true, if_false]
            obtain ⟨sa, hae, hxa, hfa, hpa⟩ :=
              @awe_extends { s with fuel := s.fuel - 1 - 1 - 1 } errFn
                (s.nodes[s.pos])
                (by show s.nodes[s.pos]? = some s.nodes[s.pos]; exact hnode)
                (by show s.fuel - 1 - 1 - 1 ≠ 0; omega)
            rw [Option.some_bind]
            simp only [Bool.false_eq_true, if_false]
            rw [hae, Option.some_bind]
            have hna : sa.nodes = s.nodes := hxa.nodes_eq
            have hpa2 : sa.pos = s.pos + 1 := hpa
            obtain ⟨s', hrec, hxr, hfr⟩ := ih sa
              (by rw [hna, hpa2]; omega) (by omega) hxa.fuel_le hxa.pos_le_len
            refine ⟨s', hrec, ?_, ?_⟩
            · exact (extends_fuel (s.fuel - 1 - 1 - 1) hp (by omega)).trans (hxa.trans hxr)
            · right
              have hfa2 : sa.fuel = 256 := hfa
              rcases hfr with h | h <;> omega

/-- `fn release` always succeeds when the cursor is at a depth-2 heading,
strictly advances, and leaves at least 252 fuel. -/
theorem releaseP_total {s : PState} (hat : atHolds (isHeading 2) s = true)
    (hf : 3 ≤ s.fuel) (hc : s.fuel ≤ 256) :
    ∃ s', releaseP s = some s'
      ∧ Extends s s' ∧ 252 ≤ s'.fuel ∧ s.pos < s'.pos := by
  have h1 : s.fuel ≠ 0 := by omega
  obtain ⟨node, hnode, -⟩ := atHolds_some hat
  have hlt : s.pos < s.nodes.length := pos_lt_of_getElem? hnode
  have hp : s.pos ≤ s.nodes.length := Nat.le_of_lt hlt
  unfold releaseP
  rw [atP_eq _ h1, Option.some_bind]
  simp only [hat, if_true]
  dsimp only [openM]
  obtain ⟨s2, hrh, hx2, hf2, hp2⟩ :=
    @releaseHeaderP_total
      { s with fuel := s.fuel - 1, events := s.events ++ [Event.openE (.error "Unclosed Event")] }
      node (by show s.nodes[s.pos]? = some node; exact hnode)
      (by show 2 ≤ s.fuel - 1; omega) (by show s.fuel - 1 ≤ 256; omega)
  rw [hrh, Option.some_bind]
  have hf2n : s2.fuel = 256 := hf2
  have hp2n : s2.pos = s.pos + 1 := hp2
  obtain ⟨s5, hloop, hxloop, hfloop⟩ :=
    sectionLoop_total releaseLoopErr (s2.nodes.length + 1) s2
      (by omega) (by omega) hx2.fuel_le hx2.pos_le_len
  rw [hloop, Option.map_some']
  refine ⟨_, rfl, ?_, ?_, ?_⟩
  · have hx2a : Extends (openM ({ s with fuel := s.fuel - 1 } : PState)).2 s2 := hx2
    have hc2 := close_openM_extends .release (hx2a.trans hxloop)
    exact (extends_fuel (s.fuel - 1) hp (by omega)).trans hc2.1
  · show (252 : Nat) ≤ s5.fuel
    rcases hfloop with h | h <;> omega
  · show s.pos < s5.pos
    have := hxloop.pos_mono
    omega

/-- `fn unreleased` always succeeds. -/
theorem unreleasedP_total {s : PState} (hf : 9 ≤ s.fuel) (hc : s.fuel ≤ 256)
    (hp : s.pos ≤ s.nodes.length) :
    ∃ s', unreleasedP s = some s'
      ∧ Extends s s' ∧ (s.fuel - 9 ≤ s'.fuel ∨ 252 ≤ s'.fuel) := by
  have h1 : s.fuel ≠ 0 := by omega
  have hsameF : ∀ (f : MdNode → Bool) (k : Nat),
      atHolds f ({ s with fuel := k } : PState) = atHolds f s := by
    intro f k; simp [atHolds]
  unfold unreleasedP
  rw [atP_eq _ h1, Option.some_bind]
  by_cases hat : atHolds (isHeading 2) s
  · simp only [hat, if_true]
    rw [atP_eq (s := { s with fuel := s.fuel - 1 }) _ (by show s.fuel - 1 ≠ 0; omega),
      Option.some_bind]
    simp only [hsameF]
    by_cases hat2 : atHolds (fun n => reIsMatch releaseHeaderRE n.txt) s
    · simp only [hat2, Bool.not_true, Bool.false_eq_true, if_false]
      refine ⟨_, rfl, ?_, Or.inl ?_⟩
      · exact (extends_fuel (s.fuel - 1 - 1) hp (by omega)).trans
          ((captureMissing_extends missingUnreleasedMsg
            (by show s.pos ≤ s.nodes.length; exact hp)
            (by show s.fuel - 1 - 1 ≤ 256; omega)).1)
      · have := (captureMissing_extends (s := { s with fuel := s.fuel - 1 - 1 })
          missingUnreleasedMsg (by show s.pos ≤ s.nodes.length; exact hp)
          (by show s.fuel - 1 - 1 ≤ 256; omega)).2
        simp only [this]
        show s.fuel - 9 ≤ s.fuel - 1 - 1
        omega
    · rw [Bool.not_eq_true] at hat2
      simp only [hat2, Bool.not_false, if_true]
      dsimp only [openM]
      obtain ⟨s3, he3, hx3, hf3⟩ :=
        expectP_total
          (s := { s with fuel := s.fuel - 1 - 1, events := s.events ++ [Event.openE (.error "Unclosed Event")] ++ [Event.openE (.error "Unclosed Event")] })
          (fun n => reIsMatch unreleasedHeaderRE n.txt)
          (fun n => "Expected '## " ++ UNRELEASED_HEADER_TEXT ++ "' but found '" ++
            toMarkdown n ++ "'")
          (by show 3 ≤ s.fuel - 1 - 1; omega) (by show s.fuel - 1 - 1 ≤ 256; omega)
          (by show s.pos ≤ s.nodes.length; exact hp)
      rw [he3, Option.some_bind]
      dsimp only [closeM]
      obtain ⟨s5, hloop, hxloop, hfloop⟩ :=
        sectionLoop_total unreleasedLoopErr
          (s3.nodes.length + 1)
          ({ s3 with events := (s3.events.set (s.events ++ [Event.openE (.error "Unclosed Event")]).length (Event.openE .unreleasedHeader)) ++ [Event.close] })
          (by show s3.nodes.length ≤ s3.pos + (s3.nodes.length + 1); have := hx3.pos_le_len; omega)
          (by show 4 ≤ s3.fuel; have hf3a : s.fuel - 1 - 1 - 3 ≤ s3.fuel := hf3; omega)
          (by show s3.fuel ≤ 256; exact hx3.fuel_le)
          (by show s3.pos ≤ s3.nodes.length; exact hx3.pos_le_len)
      rw [hloop, Option.map_some']
      refine ⟨_, rfl, ?_, ?_⟩
      · have hx3a : Extends (openM (openM ({ s with fuel := s.fuel - 1 - 1 } : PState)).2).2 s3 := hx3
        have hc1 := close_openM_extends .unreleasedHeader hx3a
        have hxloopa : Extends
            (closeM (openM (openM ({ s with fuel := s.fuel - 1 - 1 } : PState)).2).1 .unreleasedHeader s3) s5 := hxloop
        have hc2 := close_openM_extends .unreleased ((hc1.1.trans hxloopa))
        exact (extends_fuel (s.fuel - 1 - 1) hp (by omega)).trans hc2.1
      · have hf5 : s3.fuel - 3 ≤ s5.fuel ∨ 252 ≤ s5.fuel := hfloop
        have hf3a : s.fuel - 1 - 1 - 3 ≤ s3.fuel := hf3
        show s.fuel - 9 ≤ s5.fuel ∨ 252 ≤ s5.fuel
        rcases hf5 with h | h <;> omega
  · rw [Bool.not_eq_true] at hat
    simp only [hat, Bool.false_eq_true, if_false]
    refine ⟨_, rfl, ?_, Or.inl ?_⟩
    · exact (extends_fuel (s.fuel - 1) hp (by omega)).trans
        ((captureMissing_extends missingUnreleasedMsg
          (by show s.pos ≤ s.nodes.length; exact hp)
          (by show s.fuel - 1 ≤ 256; omega)).1)
    · have := (captureMissing_extends (s := { s with fuel := s.fuel - 1 })
        missingUnreleasedMsg (by show s.pos ≤ s.nodes.length; exact hp)
        (by show s.fuel - 1 ≤ 256; omega)).2
      simp only [this]
      show s.fuel - 9 ≤ s.fuel - 1
      omega

/-- The `(Release | ReleaseLink)*` loop of `changelog_file` always succeeds
when given at least `nodes.length - pos` iterations, and stops at the end
of the node list. -/
theorem changelogFileLoop_total :
    ∀ (n : Nat) (s : PState), s.nodes.length ≤ s.pos + n → 6 ≤ s.fuel → s.fuel ≤ 256 →
      s.pos ≤ s.nodes.length →
    ∃ s', changelogFileLoop n s = some s' ∧ Extends s s' ∧ s'.pos = s'.nodes.length := by
  intro n
  induction n with
  | zero =>
    intro s hn hf hc hp
    have hpe : s.pos = s.nodes.length := by omega
    have he : eofP s = true := by simp only [eofP]; simp; omega
    simp only [changelogFileLoop]
    rw [if_pos he]
    exact ⟨s, rfl, extends_self hp hc, hpe⟩
  | succ n ih =>
    intro s hn hf hc hp
    have h1 : s.fuel ≠ 0 := by omega
    have hsameF : ∀ (f : MdNode → Bool) (k : Nat),
        atHolds f ({ s with fuel := k } : PState) = atHolds f s := by
      intro f k; simp [atHolds]
    simp only [changelogFileLoop]
    by_cases heof : s.pos = s.nodes.length
    · have he : eofP s = true := by simp only [eofP]; simp; omega
      rw [if_pos he]
      exact ⟨s, rfl, extends_self hp hc, heof⟩
    · have hlt : s.pos < s.nodes.length := by omega
      have he : eofP s = false := by simp only [eofP]; simp; omega
      rw [if_neg (by simp [he])]
      rw [atP_eq _ h1, Option.some_bind]
      have hnode : s.nodes[s.pos]? = some s.nodes[s.pos] := List.getElem?_eq_getElem hlt
      by_cases hat : atHolds (isHeading 2) s
      · simp only [hat, if_true]
        obtain ⟨sr, hr, hxr, hfr, hpr⟩ :=
          releaseP_total (s := { s with fuel := s.fuel - 1 })
            (show atHolds (isHeading 2) ({ s with fuel := s.fuel - 1 } : PState) = true from hat)
            (by show 3 ≤ s.fuel - 1; omega) (by show s.fuel - 1 ≤ 256; omega)
        rw [hr, Option.some_bind]
        have hrn : sr.nodes = s.nodes := hxr.nodes_eq
        have hrp : s.pos < sr.pos := hpr
        obtain ⟨s', hrec, hxrec, hprec⟩ := ih sr
          (by rw [hrn]; omega) (by omega) hxr.fuel_le hxr.pos_le_len
        exact ⟨s', hrec,
          (extends_fuel (s.fuel - 1) hp (by omega)).trans (hxr.trans hxrec), hprec⟩
      · rw [Bool.not_eq_true] at hat
        simp only [hat, Bool.false_eq_true, if_false]
        rw [atP_eq (s := { s with fuel := s.fuel - 1 }) _ (by show s.fuel - 1 ≠ 0; omega),
          Option.some_bind]
        simp only [hsameF]
        by_cases hat2 : atHolds isDefinition s
        · simp only [hat2, if_true]
          obtain ⟨node2, hnode2, -⟩ := atHolds_some hat2
          obtain ⟨sl, hl, hxl, hfl, hpl⟩ :=
            @releaseLinkP_total { s with fuel := s.fuel - 1 - 1 }
              node2 (by show s.nodes[s.pos]? = some node2; exact hnode2)
              (by show 2 ≤ s.fuel - 1 - 1; omega) (by show s.fuel - 1 - 1 ≤ 256; omega)
          rw [hl, Option.some_bind]
          have hln : sl.nodes = s.nodes := hxl.nodes_eq
          have hlp : sl.pos = s.pos + 1 := hpl
          have hlf : sl.fuel = 256 := hfl
          obtain ⟨s', hrec, hxrec, hprec⟩ := ih sl
            (by rw [hln, hlp]; omega) (by omega) hxl.fuel_le hxl.pos_le_len
          exact ⟨s', hrec,
            (extends_fuel (s.fuel - 1 - 1) hp (by omega)).trans (hxl.trans hxrec), hprec⟩
        · rw [Bool.not_eq_true] at hat2
          simp only [hat2, Bool.false_eq_true, if_false]
          obtain ⟨sa, hae, hxa, hfa, hpa⟩ :=
            @awe_extends { s with fuel := s.fuel - 1 - 1 } changelogFileLoopErr
              (s.nodes[s.pos])
              (by show s.nodes[s.pos]? = some s.nodes[s.pos]; exact hnode)
              (by show s.fuel - 1 - 1 ≠ 0; omega)
          rw [hae, Option.some_bind]
          have hna : sa.nodes = s.nodes := hxa.nodes_eq
          have hpa2 : sa.pos = s.pos + 1 := hpa
          have hfa2 : sa.fuel = 256 := hfa
          obtain ⟨s', hrec, hxrec, hprec⟩ := ih sa
            (by rw [hna, hpa2]; omega) (by omega) hxa.fuel_le hxa.pos_le_len
          exact ⟨s', hrec,
            (extends_fuel (s.fuel - 1 - 1) hp (by omega)).trans (hxa.trans hxrec), hprec⟩

/-- `fn changelog_file` always succeeds on a full fuel cell, consumes every
node, and logs a single balanced `ChangelogFile` event tree whose advance
count is the number of nodes. -/
theorem changelogFileP_total {s : PState} (hf : s.fuel = 256) (hp : s.pos ≤ s.nodes.length) :
    ∃ s' δ, changelogFileP s = some s'
      ∧ s'.nodes = s.nodes ∧ s'.docLength = s.docLength ∧ s'.pos = s.nodes.length
      ∧ s'.events = s.events ++ (Event.openE .changelogFile :: (δ ++ [Event.close]))
      ∧ Seg δ ∧ advCount δ = s.nodes.length - s.pos := by
  unfold changelogFileP
  dsimp only [openM]
  obtain ⟨s2, ht, hx2, hf2⟩ := titleP_total
    (s := { s with events := s.events ++ [Event.openE (.error "Unclosed Event")] })
    (by show 6 ≤ s.fuel; omega) (by show s.fuel ≤ 256; omega)
    (by show s.pos ≤ s.nodes.length; exact hp)
  rw [ht, Option.some_bind]
  have hf2a : s.fuel - 6 ≤ s2.fuel := hf2
  obtain ⟨s3, hn3, hx3, hf3⟩ := notableChangesTextP_total (s := s2)
    (by omega) hx2.fuel_le hx2.pos_le_len
  rw [hn3, Option.some_bind]
  obtain ⟨s4, ha4, hx4, hf4⟩ := aboutFormatTextP_total (s := s3)
    (by omega) hx3.fuel_le hx3.pos_le_len
  rw [ha4, Option.some_bind]
  obtain ⟨s5, hu5, hx5, hf5⟩ := unreleasedP_total (s := s4)
    (by omega) hx4.fuel_le hx4.pos_le_len
  rw [hu5, Option.some_bind]
  obtain ⟨s6, hl6, hx6, hp6⟩ := changelogFileLoop_total (s5.nodes.length + 1) s5
    (by omega) (by rcases hf5 with h | h <;> omega) hx5.fuel_le hx5.pos_le_len
  rw [hl6, Option.map_some']
  have hxin : Extends { s with events := s.events ++ [Event.openE (.error "Unclosed Event")] } s6 :=
    hx2.trans (hx3.trans (hx4.trans (hx5.trans hx6)))
  obtain ⟨hn6, hd6, hp6le, hb6, hf6, δ, he6, hs6, ha6⟩ := hxin
  have hn6a : s6.nodes = s.nodes := hn6
  refine ⟨_, δ, rfl, ?_, ?_, ?_, ?_, hs6, ?_⟩
  · show s6.nodes = s.nodes
    exact hn6a
  · show s6.docLength = s.docLength
    exact hd6
  · show s6.pos = s.nodes.length
    rw [hp6, hn6a]
  · show (s6.events.set s.events.length (Event.openE .changelogFile)) ++ [Event.close]
      = s.events ++ (Event.openE .changelogFile :: (δ ++ [Event.close]))
    have he6a : s6.events = s.events ++ (Event.openE (.error "Unclosed Event") :: δ) := by
      have he6b : s6.events = (s.events ++ [Event.openE (.error "Unclosed Event")]) ++ δ := he6
      rw [he6b]
      simp
    rw [he6a, set_append_cons, List.append_assoc, List.cons_append]
  · have haa : advCount δ = s6.pos - s.pos := ha6
    rw [haa, hp6, hn6a]

theorem mdsList_append (a b : List Child) : mdsList (a ++ b) = mdsList a ++ mdsList b := by
  induction a with
  | nil => simp [mdsList]
  | cons c r ih => simp [mdsList, ih]

theorem Tree.mds_push (t : Tree) (c : Child) :
    (t.push c).mds = t.mds ++ Child.mds c := by
  cases t with
  | mk k cs => simp [Tree.push, Tree.kind, Tree.children, Tree.mds, mdsList_append, mdsList]

theorem Tree.kind_push (t : Tree) (c : Child) : (t.push c).kind = t.kind := by
  cases t with
  | mk k cs => simp [Tree.push, Tree.kind, Tree.children]

/-- Folding a balanced event segment over the build stack: the part of the
stack at or below the barrier tree `t` is only grown, no step panics, the
nodes consumed are the advance count, and the markdown nodes attached to
the live part of the stack are exactly the consumed nodes in order. -/
theorem processEvents_total (dl : Nat) :
    ∀ (δ : List Event) (d e : Nat), evDepthRun δ d = some e →
    ∀ (extra : List Tree) (t : Tree) (base : List Tree) (ns : List MdNode) (prev : Option Pos),
      extra.length = d → advCount δ ≤ ns.length →
      ∃ extra' t' prev',
        processEvents dl δ (extra ++ t :: base) ns prev
          = some (extra' ++ t' :: base, ns.drop (advCount δ), prev')
        ∧ extra'.length = e ∧ t'.kind = t.kind
        ∧ stackMds (extra' ++ [t']) = stackMds (extra ++ [t]) ++ ns.take (advCount δ) := by
  intro δ
  induction δ with
  | nil =>
    intro d e hde extra t base ns prev hlen hadv
    have hde2 : d = e := Option.some.inj hde
    refine ⟨extra, t, prev, ?_, hde2 ▸ hlen, rfl, ?_⟩
    · simp [processEvents, advCount]
    · simp [advCount]
  | cons ev rest ih =>
    intro d e hde extra t base ns prev hlen hadv
    cases ev with
    | openE k =>
      have hde2 : evDepthRun rest (d + 1) = some e := hde
      obtain ⟨extra', t', prev', hrun, hlen', hkind', hmds'⟩ :=
        ih (d + 1) e hde2 (Tree.mk k [] :: extra) t base ns prev (by simp [hlen]) hadv
      refine ⟨extra', t', prev', hrun, hlen', hkind', ?_⟩
      rw [hmds']
      simp [stackMds, Tree.mds, mdsList, advCount]
    | close =>
      cases d with
      | zero => simp [evDepthRun] at hde
      | succ d2 =>
        have hde2 : evDepthRun rest d2 = some e := hde
        cases extra with
        | nil =>
          simp only [List.length_nil] at hlen
          omega
        | cons x extra2 =>
          have hlen2 : extra2.length = d2 := by simpa using hlen
          cases extra2 with
          | nil =>
            obtain ⟨extra', t', prev', hrun, hlen', hkind', hmds'⟩ :=
              ih d2 e hde2 [] (t.push (.tree x)) base ns prev hlen2 hadv
            refine ⟨extra', t', prev', hrun, hlen', ?_, ?_⟩
            · rw [hkind', Tree.kind_push]
            · rw [hmds']
              simp [stackMds, Tree.mds_push, Child.mds, advCount]
          | cons y extra3 =>
            obtain ⟨extra', t', prev', hrun, hlen', hkind', hmds'⟩ :=
              ih d2 e hde2 (y.push (.tree x) :: extra3) t base ns prev
                (by simpa using hlen2) hadv
            refine ⟨extra', t', prev', hrun, hlen', hkind', ?_⟩
            rw [hmds']
            simp [stackMds, Tree.mds_push, Child.mds, advCount]
    | advance =>
      have hde2 : evDepthRun rest d = some e := hde
      have hadv2 : advCount rest + 1 ≤ ns.length := hadv
      cases ns with
      | nil =>
        simp only [List.length_nil] at hadv2
        omega
      | cons n ns2 =>
        have hadv3 : advCount rest ≤ ns2.length := by simpa using hadv2
        cases extra with
        | nil =>
          obtain ⟨extra', t', prev', hrun, hlen', hkind', hmds'⟩ :=
            ih d e hde2 [] (t.push (.markdown n)) base ns2 n.pos hlen hadv3
          refine ⟨extra', t', prev', hrun, hlen', ?_, ?_⟩
          · rw [hkind', Tree.kind_push]
          · rw [hmds']
            simp [stackMds, Tree.mds_push, Child.mds, advCount]
        | cons x extra2 =>
          obtain ⟨extra', t', prev', hrun, hlen', hkind', hmds'⟩ :=
            ih d e hde2 (x.push (.markdown n) :: extra2) t base ns2 n.pos
              (by simpa using hlen) hadv3
          refine ⟨extra', t', prev', hrun, hlen', hkind', ?_⟩
          rw [hmds']
          simp [stackMds, Tree.mds_push, Child.mds, advCount]
    | missing =>
      have hde2 : evDepthRun rest d = some e := hde
      have hadv2 : advCount rest ≤ ns.length := hadv
      cases extra with
      | nil =>
        obtain ⟨extra', t', prev', hrun, hlen', hkind', hmds'⟩ :=
          ih d e hde2 [] (t.push (.dummy (getDummyNodePosition prev dl))) base ns prev
            hlen hadv2
        refine ⟨extra', t', prev', hrun, hlen', ?_, ?_⟩
        · rw [hkind', Tree.kind_push]
        · rw [hmds']
          simp [stackMds, Tree.mds_push, Child.mds, advCount]
      | cons x extra2 =>
        obtain ⟨extra', t', prev', hrun, hlen', hkind', hmds'⟩ :=
          ih d e hde2 (x.push (.dummy (getDummyNodePosition prev dl)) :: extra2) t base ns prev
            (by simpa using hlen) hadv2
        refine ⟨extra', t', prev', hrun, hlen', hkind', ?_⟩
        rw [hmds']
        simp [stackMds, Tree.mds_push, Child.mds, advCount]

/-- `parse` always succeeds, the root is a `ChangelogFile`, and the tree
holds exactly the input nodes in order. -/
theorem parse_total (nodes : List MdNode) (docLength : Nat) :
    ∃ t, parse nodes docLength = some t
      ∧ t.kind = .changelogFile ∧ Tree.mds t = nodes := by
  obtain ⟨s', δ, hcp, hn', hd', hp', he', hs', ha'⟩ :=
    changelogFileP_total (s := ⟨nodes, 0, 256, [], docLength⟩) rfl (Nat.zero_le _)
  have hn2 : s'.nodes = nodes := hn'
  have ha2 : advCount δ = nodes.length := by
    have h0 : advCount δ = nodes.length - 0 := ha'
    omega
  have he2 : s'.events = (Event.openE .changelogFile :: δ) ++ [Event.close] := by
    have h0 : s'.events = [] ++ (Event.openE .changelogFile :: (δ ++ [Event.close])) := he'
    rw [h0]
    simp
  have hlast : s'.events.getLast? = some Event.close := by
    rw [he2, List.getLast?_concat]
  have hdrop1 : s'.events.dropLast = Event.openE .changelogFile :: δ := by
    rw [he2, List.dropLast_concat]
  unfold parse
  rw [hcp, Option.some_bind]
  unfold buildTree
  rw [hlast, hdrop1]
  obtain ⟨extra', t', prev', hrun, hlen', hkind', hmds'⟩ :=
    processEvents_total s'.docLength δ 0 0 hs' [] (Tree.mk .changelogFile []) [] s'.nodes none
      rfl (by rw [ha2, hn2])
  obtain rfl : extra' = [] := List.length_eq_zero.mp hlen'
  have hdrop2 : s'.nodes.drop (advCount δ) = [] := by
    rw [ha2, hn2]
    exact List.drop_length nodes
  have hrun2 : processEvents s'.docLength (Event.openE .changelogFile :: δ) [] s'.nodes none
      = some ([t'], [], prev') := by
    have h0 := hrun
    rw [hdrop2] at h0
    exact h0
  rw [hrun2, Option.some_bind]
  refine ⟨t', rfl, hkind', ?_⟩
  have hm2 : Tree.mds t' = s'.nodes.take (advCount δ) := hmds'
  rw [hm2, ha2, hn2, List.take_length]

/-! ## Promotion lemmas -/

theorem alInsert_append {α : Type} (m : List (String × α)) (k : String) (v : α)
    (h : ∀ p ∈ m, p.1 ≠ k) : alInsert m k v = m ++ [(k, v)] := by
  have hfalse : ¬(m.any (fun e => e.1 == k) = true) := by
    rw [List.any_eq_true]
    rintro ⟨p, hp, hpk⟩
    exact h p hp (by simpa using hpk)
  unfold alInsert
  rw [if_neg hfalse]

theorem alExtend_append {α : Type} (old : List (String × α)) :
    ∀ pre : List (String × α),
      (∀ e ∈ old, ∀ p ∈ pre, e.1 ≠ p.1) → (old.map Prod.fst).Nodup →
      alExtend pre old = pre ++ old := by
  induction old with
  | nil =>
    intro pre h hnd
    simp [alExtend]
  | cons e old2 ih =>
    intro pre h hnd
    show alExtend (alInsert pre e.1 e.2) old2 = pre ++ e :: old2
    rw [alInsert_append pre e.1 e.2 (fun p hp => (h e (by simp) p hp).symm)]
    rw [List.map_cons, List.nodup_cons] at hnd
    rw [ih (pre ++ [(e.1, e.2)]) ?_ hnd.2]
    · simp
    · intro x hx p hp
      rcases List.mem_append.mp hp with hp1 | hp2
      · exact h x (List.mem_cons_of_mem _ hx) p hp1
      · have hpe : p = (e.1, e.2) := by simpa using hp2
        subst hpe
        intro hxe
        refine absurd ?_ hnd.1
        rw [List.mem_map]
        exact ⟨x, hx, hxe⟩

/-- The success branch of `promoteUnreleased` in closed form: the new
release is prepended and the rest of the changelog keeps its value. -/
theorem promoteUnreleased_success (c : Changelog) (opts : PromoteOptions) (today : String)
    (hnd : (c.releases.map Prod.fst).Nodup)
    (hmem : c.releases.any (fun e => e.1 == opts.version) = false) :
    promoteUnreleased c opts today
      = (none,
         { unreleased := { link := c.unreleased.link, changes := [] },
           releases := (opts.version,
             { version := opts.version, date := opts.date.getD today, tag := opts.tag,
               link := opts.link, changes := c.unreleased.changes }) :: c.releases }) := by
  have hx : alExtend
      [(opts.version,
        ({ version := opts.version, date := opts.date.getD today, tag := opts.tag,
           link := opts.link, changes := c.unreleased.changes } : Release))] c.releases
      = (opts.version,
         ({ version := opts.version, date := opts.date.getD today, tag := opts.tag,
            link := opts.link, changes := c.unreleased.changes } : Release)) :: c.releases := by
    rw [alExtend_append c.releases _ ?_ hnd]
    · simp
    · intro x hx p hp
      rw [List.mem_singleton] at hp
      subst hp
      intro hxv
      have hany : c.releases.any (fun e => e.1 == opts.version) = true := by
        rw [List.any_eq_true]
        exact ⟨x, hx, by simp [hxv]⟩
      rw [hmem] at hany
      exact Bool.noConfusion hany
  unfold promoteUnreleased
  rw [if_neg (by simp [hmem])]
  dsimp only
  rw [hx]

/-! ## Claims -/

/-- C1: for every block-node list the external markdown parser can produce
(in particular for the empty string, truncated documents, and arbitrary
text) and every document length, `parse` returns a tree — it never panics
or aborts — and the root kind of that tree is `ChangelogFile`. -/
theorem C1_parse_totality (nodes : List MdNode) (docLength : Nat) :
    ∃ t, parse nodes docLength = some t ∧ t.kind = .changelogFile := by
  obtain ⟨t, h1, h2, -⟩ := parse_total nodes docLength
  exact ⟨t, h1, h2⟩

/-- C9: the tree built by the event-log post-pass holds every top-level
markdown block node of the input exactly once as a `Markdown` child, in
original document order — the in-order list of attached nodes is the input
list itself, so each `Advance` consumed exactly the next unconsumed node
and nothing was left unattached. -/
theorem C9_all_nodes_once_in_order (nodes : List MdNode) (docLength : Nat) :
    ∃ t, parse nodes docLength = some t ∧ Tree.mds t = nodes := by
  obtain ⟨t, h1, -, h3⟩ := parse_total nodes docLength
  exact ⟨t, h1, h3⟩

set_option maxRecDepth 100000 in
/-- C5: parsing the empty document (no block nodes, length 0) yields
exactly four diagnostics — missing title, missing notable-changes
paragraph, missing about-format paragraph and missing unreleased header,
in that order, all at the default position — and nothing else. -/
theorem C5_empty_document_diagnostics :
    parse [] 0 = some emptyDocTree
    ∧ getDiagnostics emptyDocTree
      = some [⟨missingTitleMsg, defaultPosition⟩, ⟨missingNotableMsg, defaultPosition⟩,
              ⟨missingAboutMsg, defaultPosition⟩, ⟨missingUnreleasedMsg, defaultPosition⟩] := by
  constructor
  · rfl
  · rfl

set_option maxRecDepth 100000 in
/-- C6: a `Missing` event attaches a dummy child at
`getDummyNodePosition` of the most recently advanced node's position; that
position is line `stop.line + 1`, column 1, offset `stop.offset + 1`
clamped to the document length, and `(1,1,0)` when nothing has been
advanced yet — as on the empty document, whose four dummies all sit at
`(1,1,0)`. -/
theorem C6_dummy_node_positions :
    (∀ (p : Pos) (docLength : Nat),
       getDummyNodePosition (some p) docLength
         = ⟨⟨p.stop.line + 1, 1, min (p.stop.offset + 1) docLength⟩,
            ⟨p.stop.line + 1, 1, min (p.stop.offset + 1) docLength⟩⟩)
    ∧ (∀ docLength : Nat, getDummyNodePosition none docLength = ⟨⟨1, 1, 0⟩, ⟨1, 1, 0⟩⟩)
    ∧ (∀ (dl : Nat) (rest : List Event) (t : Tree) (stack : List Tree)
         (ns : List MdNode) (prev : Option Pos),
        processEvents dl (.missing :: rest) (t :: stack) ns prev
          = processEvents dl rest
              (t.push (.dummy (getDummyNodePosition prev dl)) :: stack) ns prev)
    ∧ parse [] 0 = some emptyDocTree
    ∧ Tree.dummies emptyDocTree
        = [defaultPosition, defaultPosition, defaultPosition, defaultPosition] := by
  refine ⟨?_, ?_, ?_, ?_, ?_⟩
  · intro p docLength
    simp [getDummyNodePosition, clampNat, Nat.zero_max]
  · intro docLength
    rfl
  · intro dl rest t stack ns prev
    rfl
  · rfl
  · rfl

set_option maxRecDepth 100000 in
/-- C7: on the orphan-link document the only diagnostic is the
release-link-without-release message at the definition's position, and on
the duplicated-link document the only diagnostic is the duplicate-link
message at the second definition's position. -/
theorem C7_release_link_diagnostics :
    (parse docOrphanLink docOrphanLinkLen = some orphanLinkTree
      ∧ getDiagnostics orphanLinkTree
        = some [⟨"Release link version does not match any listed releases",
                 ⟨⟨10, 1, 268⟩, ⟨10, 32, 299⟩⟩⟩])
    ∧ (parse docDupLink docDupLinkLen = some dupLinkTree
      ∧ getDiagnostics dupLinkTree
        = some [⟨"Duplicate release version link '2.0.0' found",
                 ⟨⟨17, 1, 353⟩, ⟨17, 32, 384⟩⟩⟩]) := by
  exact ⟨⟨rfl, rfl⟩, ⟨rfl, rfl⟩⟩

set_option maxRecDepth 100000 in
/-- C8: on the document with two `### Fixed` headings under one release the
only diagnostic is one "Duplicate change group found" at the second
heading's position; the first heading produces none. -/
theorem C8_duplicate_change_group :
    parse docDupGroup docDupGroupLen = some dupGroupTree
    ∧ getDiagnostics dupGroupTree
      = some [⟨"Duplicate change group found", ⟨⟨16, 1, 319⟩, ⟨16, 10, 328⟩⟩⟩] := by
  exact ⟨rfl, rfl⟩

set_option maxRecDepth 100000 in
/-- C2: counterexample to the claimed equivalence — on the empty input the
event-log parser's diagnostics are the four missing-section errors, yet
the legacy `parse_changelog` behind `Changelog::from_str` accepts the
document and returns the empty changelog. -/
theorem C2_diagnostics_vs_from_str :
    parseChangelog [] "" = .ok ({} : Changelog)
    ∧ parse [] 0 = some emptyDocTree
    ∧ getDiagnostics emptyDocTree ≠ some [] := by
  refine ⟨rfl, rfl, ?_⟩
  intro h
  rw [show getDiagnostics emptyDocTree
      = some [⟨missingTitleMsg, defaultPosition⟩, ⟨missingNotableMsg, defaultPosition⟩,
              ⟨missingAboutMsg, defaultPosition⟩, ⟨missingUnreleasedMsg, defaultPosition⟩]
    from rfl] at h
  exact List.noConfusion (Option.some.inj h)

/-- C4: `promote_unreleased` errors exactly when the requested version is
already a key of `releases`; the error carries that version and leaves the
changelog unchanged; on success the unreleased changes become empty and
the new release — built from the options, today's date when none is
given, and the prior unreleased changes — is the first entry, with every
prior entry following in order. -/
theorem C4_promote_unreleased (c : Changelog) (opts : PromoteOptions) (today : String)
    (hnd : (c.releases.map Prod.fst).Nodup) :
    ((promoteUnreleased c opts today).1 ≠ none ↔ opts.version ∈ c.releases.map Prod.fst)
    ∧ ((promoteUnreleased c opts today).1 ≠ none →
        (promoteUnreleased c opts today).1 = some ⟨opts.version⟩
        ∧ (promoteUnreleased c opts today).2 = c)
    ∧ ((promoteUnreleased c opts today).1 = none →
        (promoteUnreleased c opts today).2
          = { unreleased := { link := c.unreleased.link, changes := [] },
              releases := (opts.version,
                { version := opts.version, date := opts.date.getD today, tag := opts.tag,
                  link := opts.link, changes := c.unreleased.changes }) :: c.releases }) := by
  have hiff : (c.releases.any (fun e => e.1 == opts.version) = true)
      ↔ opts.version ∈ c.releases.map Prod.fst := by
    rw [List.any_eq_true]
    constructor
    · rintro ⟨e, he, hek⟩
      rw [List.mem_map]
      exact ⟨e, he, by simpa using hek⟩
    · intro h
      rw [List.mem_map] at h
      obtain ⟨e, he, hek⟩ := h
      exact ⟨e, he, by simpa using hek⟩
  cases hmem : c.releases.any (fun e => e.1 == opts.version) with
  | true =>
    have hres : promoteUnreleased c opts today = (some ⟨opts.version⟩, c) := by
      unfold promoteUnreleased
      rw [if_pos hmem]
    rw [hres]
    refine ⟨⟨fun _ => hiff.mp hmem, fun _ => by simp⟩, fun _ => ⟨rfl, rfl⟩, fun h => ?_⟩
    exact absurd h (by simp)
  | false =>
    have hres := promoteUnreleased_success c opts today hnd hmem
    rw [hres]
    refine ⟨⟨fun h => absurd rfl h, fun h => ?_⟩, fun h => absurd rfl h, fun _ => rfl⟩
    have hany := hiff.mpr h
    rw [hmem] at hany
    exact Bool.noConfusion hany

/-- C4 witness: on the concrete changelog the hypotheses hold and the
error test coincides with key membership. -/
theorem C4_promote_unreleased_witness :
    (c4wChangelog.releases.map Prod.fst).Nodup
    ∧ ((promoteUnreleased c4wChangelog c4wOptions "2024-01-02").1 ≠ none
        ↔ c4wOptions.version ∈ c4wChangelog.releases.map Prod.fst) :=
  ⟨by decide, (C4_promote_unreleased c4wChangelog c4wOptions "2024-01-02" (by decide)).1⟩

/-- C10: a successful promotion changes nothing besides emptying the
unreleased changes and prepending the new release: the unreleased link is
preserved, the release list grows by one, and every pre-existing entry —
version, date, tag, link and changes — reappears unchanged one index
further down. -/
theorem C10_promote_frame (c : Changelog) (opts : PromoteOptions) (today : String)
    (hnd : (c.releases.map Prod.fst).Nodup)
    (hsucc : (promoteUnreleased c opts today).1 = none) :
    (promoteUnreleased c opts today).2.unreleased.link = c.unreleased.link
    ∧ (promoteUnreleased c opts today).2.releases.length = c.releases.length + 1
    ∧ ∀ i : Nat, (promoteUnreleased c opts today).2.releases[i + 1]? = c.releases[i]? := by
  cases hmem : c.releases.any (fun e => e.1 == opts.version) with
  | true =>
    have hres : promoteUnreleased c opts today = (some ⟨opts.version⟩, c) := by
      unfold promoteUnreleased
      rw [if_pos hmem]
    rw [hres] at hsucc
    exact Option.noConfusion hsucc
  | false =>
    have hres := promoteUnreleased_success c opts today hnd hmem
    rw [hres]
    refine ⟨rfl, by simp, ?_⟩
    intro i
    simp

/-- C10 witness: on the concrete changelog the hypotheses hold and the
unreleased link survives the promotion. -/
theorem C10_promote_frame_witness :
    (c10wChangelog.releases.map Prod.fst).Nodup
    ∧ (promoteUnreleased c10wChangelog c10wOptions "2024-01-02").1 = none
    ∧ (promoteUnreleased c10wChangelog c10wOptions "2024-01-02").2.unreleased.link
        = c10wChangelog.unreleased.link :=
  ⟨by decide, by decide,
   (C10_promote_frame c10wChangelog c10wOptions "2024-01-02" (by decide) (by decide)).1⟩

end KeepAChangelog
